import Mathlib

/-!
Verification of the placement, commission and ledger/balance subsystems of the
sagenex backend.  The TypeScript services are shallowly embedded as pure Lean
functions over an explicit database state.  Money amounts are modelled as
rational numbers, wall-clock instants as integers (epoch milliseconds), and
mongoose collections as lists of records.  Mongo primitives are modelled as:
findOne = first matching element, updateOne / save on a fetched document =
replace the first matching element, deleteOne = remove the first matching
element, upsert = replace first match or append.  The bcrypt OTP hash is
abstracted to the identity function, so the stored hash is compared by string
equality.  Randomly generated identifiers (nanoid transaction ids, referral
codes) are passed to the operations as parameters.
-/

namespace Sagenex

abbrev UserId := String

/-- Amounts in settlement currency (USDT), modelled exactly as rationals. -/
abbrev Amount := ℚ

/-- Wall-clock instant, epoch milliseconds. -/
abbrev Time := Int

-- ---------------------------------------------------------------------------
-- Configuration (src/config/company.ts, src/config/features.ts,
-- src/config/payouts.ts -- the last exists in two revisions, A and B)
-- ---------------------------------------------------------------------------

/-- companyConfig.sponsorId from src/config/company.ts: the reserved root
identity, exempt from the width cap and never a bonus recipient. -/
def companySponsorId : UserId := "SAGENEX-GOLD"

/-- featureFlags.directWidthCap from src/config/features.ts. -/
def directWidthCap : Nat := 6

namespace PayoutsConfigA

/-- getTieredROIRate, first revision of src/config/payouts.ts
(breakpoints 50, 100, 500, 1000, 2000, 5000, 10000). -/
def getTieredROIRate (packageUSD : ℚ) : ℚ :=
  if packageUSD ≥ 10000 then 16/100
  else if packageUSD ≥ 5000 then 14/100
  else if packageUSD ≥ 2000 then 12/100
  else if packageUSD ≥ 1000 then 10/100
  else if packageUSD ≥ 500 then 8/100
  else if packageUSD ≥ 100 then 6/100
  else if packageUSD ≥ 50 then 5/100
  else 0

end PayoutsConfigA

namespace PayoutsConfigB

/-- getTieredROIRate, second revision of src/config/payouts.ts
(breakpoints 50, 100, 300, 500, 1000, 2500, 5000, 10000). -/
def getTieredROIRate (packageUSD : ℚ) : ℚ :=
  if packageUSD ≥ 10000 then 16/100
  else if packageUSD ≥ 5000 then 14/100
  else if packageUSD ≥ 2500 then 12/100
  else if packageUSD ≥ 1000 then 10/100
  else if packageUSD ≥ 500 then 8/100
  else if packageUSD ≥ 300 then 7/100
  else if packageUSD ≥ 100 then 6/100
  else if packageUSD ≥ 50 then 5/100
  else 0

end PayoutsConfigB

/-- FIRST_DEPOSIT_DIRECT_BONUS_PCT from src/config/payouts.ts. -/
def FIRST_DEPOSIT_DIRECT_BONUS_PCT : ℚ := 10/100

/-- UNILEVEL_PCTS from src/config/payouts.ts: percentages for levels 1..6. -/
def UNILEVEL_PCTS : List ℚ := [10/100, 6/100, 5/100, 4/100, 3/100, 2/100]

/-- getReinvestmentBonusPct from src/config/payouts.ts: the tiered
reinvestment schedule over the number of prior verified deposits
(a switch statement in the source, embedded as a decision chain). -/
def getReinvestmentBonusPct (depositCount : Nat) : ℚ :=
  if depositCount = 1 then 8/100
  else if depositCount = 2 then 6/100
  else if depositCount = 3 then 5/100
  else if depositCount = 4 then 4/100
  else if depositCount = 5 then 3/100
  else 2/100

-- ---------------------------------------------------------------------------
-- Data model
-- ---------------------------------------------------------------------------

/-- LedgerEntryType from src/wallet/wallet.ledger.model.ts. -/
inductive LedgerEntryType
  | OFFLINE_DEPOSIT
  | PACKAGE_ACTIVATION
  | ROI
  | DIRECT
  | UNILEVEL
  | SALARY
  | WITHDRAWAL_REQUEST
  | ADJUSTMENT
  | TRANSFER_IN
  | TRANSFER_OUT
  | FUND_TRANSFER_ON_DELETE
  deriving DecidableEq, Repr

/-- LedgerEntryStatus from src/wallet/wallet.ledger.model.ts. -/
inductive LedgerEntryStatus
  | PENDING
  | VERIFIED
  | POSTED
  | REJECTED
  | CANCELLED
  | PAID
  deriving DecidableEq, Repr

/-- One WalletLedger document.  The free-form meta object is narrowed to the
fields the verified operations read or write; timestamps and display names are
not modelled. -/
structure LedgerEntry where
  id : Nat
  userId : UserId
  type : LedgerEntryType
  amount : Amount
  status : LedgerEntryStatus
  createdBy : String
  metaDepositId : Option Nat := none
  metaTransactionId : Option String := none
  metaCounterpartyId : Option UserId := none
  metaBonusPct : Option ℚ := none
  metaLevel : Option Nat := none
  metaSourceUserId : Option UserId := none
  metaProcessedBy : Option String := none
  deriving DecidableEq, Repr

/-- One WalletSummary document (src/wallet/wallet.summary.model.ts). -/
structure WalletSummary where
  userId : UserId
  availableToWithdraw : Amount
  lifetimeEarnings : Amount
  deriving DecidableEq, Repr

/-- KYC verification status carried on the user document. -/
inductive KycStatus
  | NOT_SUBMITTED
  | PENDING
  | VERIFIED
  | REJECTED
  deriving DecidableEq, Repr

/-- One User document (src/user/user.model.ts), narrowed to the fields the
verified operations read or write. -/
structure UserRec where
  userId : UserId
  fullName : String
  email : String
  referralCode : String
  originalSponsorId : Option UserId
  parentId : Option UserId
  isSplitSponsor : Bool
  packageUSD : Amount
  pvPoints : Amount
  isPackageActive : Bool
  kycStatus : KycStatus
  otp : Option String := none
  otpExpires : Option Time := none
  failedOtpAttempts : Nat := 0
  otpLockoutExpires : Option Time := none
  placementDeadline : Option Time := none
  deriving DecidableEq, Repr

/-- DepositStatus from src/deposits/offline.deposit.model.ts. -/
inductive OfflineDepositStatus
  | PENDING
  | VERIFIED
  | REJECTED
  deriving DecidableEq, Repr

/-- One OfflineDeposit document, narrowed to the verified fields. -/
structure OfflineDeposit where
  id : Nat
  userId : UserId
  amountUSDT : Amount
  status : OfflineDepositStatus
  deriving DecidableEq, Repr

/-- CryptoDepositStatus from src/deposits/crypto.deposit.model.ts. -/
inductive CryptoDepositStatus
  | PENDING
  | CONFIRMED
  | FAILED
  | EXPIRED
  deriving DecidableEq, Repr

/-- One CryptoDeposit document, narrowed to the verified fields. -/
structure CryptoDeposit where
  id : Nat
  userId : UserId
  amountUSDT : Amount
  status : CryptoDepositStatus
  nowPaymentsPaymentId : String
  deriving DecidableEq, Repr

/-- The persisted database state visible to the verified services. -/
structure State where
  users : List UserRec
  summaries : List WalletSummary
  ledger : List LedgerEntry
  offlineDeposits : List OfflineDeposit
  cryptoDeposits : List CryptoDeposit
  nextLedgerId : Nat
  deriving DecidableEq, Repr

/-- Error taxonomy of src/helpers/error.helper.ts CustomError, extended with
an InducedFault kind used only to model fault injection inside the transfer
transaction (for the atomicity property). -/
inductive ErrName
  | ValidationError
  | NotFoundError
  | ConflictError
  | AuthorizationError
  | InducedFault
  deriving DecidableEq, Repr

/-- CustomError from src/helpers/error.helper.ts. -/
structure CustomError where
  name : ErrName
  message : String
  deriving DecidableEq, Repr

-- ---------------------------------------------------------------------------
-- Mongo primitives over lists
-- ---------------------------------------------------------------------------

/-- updateOne / document save: replace the first element satisfying p. -/
def replaceFirst {α : Type} (p : α → Bool) (f : α → α) : List α → List α
  | [] => []
  | x :: xs => if p x then f x :: xs else x :: replaceFirst p f xs

/-- deleteOne: remove the first element satisfying p. -/
def removeFirst {α : Type} (p : α → Bool) : List α → List α
  | [] => []
  | x :: xs => if p x then xs else x :: removeFirst p xs

/-- findOne({userId}). -/
def findUser (users : List UserRec) (uid : UserId) : Option UserRec :=
  users.find? (fun u => u.userId = uid)

/-- WalletSummary.findOne({userId}). -/
def findSummary (summaries : List WalletSummary) (uid : UserId) : Option WalletSummary :=
  summaries.find? (fun r => r.userId = uid)

/-- countDocuments({parentId: pid}). -/
def countChildren (users : List UserRec) (pid : UserId) : Nat :=
  (users.filter (fun u => u.parentId = some pid)).length

/-- findOneAndUpdate({userId}, {inc available, inc lifetime}, {upsert:true}). -/
def upsertInc (summaries : List WalletSummary) (uid : UserId) (da dl : Amount) :
    List WalletSummary :=
  if summaries.any (fun r => r.userId = uid) then
    replaceFirst (fun r => r.userId = uid)
      (fun r => { r with
        availableToWithdraw := r.availableToWithdraw + da
        lifetimeEarnings := r.lifetimeEarnings + dl }) summaries
  else
    summaries ++ [{ userId := uid, availableToWithdraw := da, lifetimeEarnings := dl }]

/-- findOneAndUpdate({userId}, {setOnInsert userId}, {upsert:true}): create the
summary row with zero balances when absent, otherwise change nothing. -/
def upsertTouch (summaries : List WalletSummary) (uid : UserId) : List WalletSummary :=
  if summaries.any (fun r => r.userId = uid) then summaries
  else summaries ++ [{ userId := uid, availableToWithdraw := 0, lifetimeEarnings := 0 }]

/-- updateOne({userId}, {inc available}) without upsert: no row, no effect. -/
def incFirstAvailable (summaries : List WalletSummary) (uid : UserId) (da : Amount) :
    List WalletSummary :=
  replaceFirst (fun r => r.userId = uid)
    (fun r => { r with availableToWithdraw := r.availableToWithdraw + da }) summaries

end Sagenex

namespace Sagenex

-- ---------------------------------------------------------------------------
-- Commission engine (src/admin/payout.service.ts)
-- ---------------------------------------------------------------------------

/-- getUpline from src/admin/payout.service.ts: climb the parent chain of
userId for at most maxLevels steps, pushing each parent, stopping when the
current user or its parent is missing or the parent is the company. -/
def getUpline (users : List UserRec) (userId : UserId) : Nat → List UserRec
  | 0 => []
  | maxLevels + 1 =>
    match findUser users userId with
    | none => []
    | some currentUser =>
      match currentUser.parentId with
      | none => []
      | some pid =>
        if pid = companySponsorId then []
        else
          match findUser users pid with
          | none => []
          | some parent => parent :: getUpline users parent.userId maxLevels

/-- getUplineForUnilevel from src/admin/payout.service.ts: the unilevel chain
starts from the parent of parentId, i.e. the grandparent of the depositor. -/
def getUplineForUnilevel (users : List UserRec) (parentId : Option UserId) :
    List UserRec :=
  match parentId with
  | none => []
  | some pid =>
    if pid = companySponsorId then []
    else getUpline users pid UNILEVEL_PCTS.length

/-- The shape of the deposit object passed to the bonus functions: both the
offline deposit and the temporary object built from a crypto deposit in
processCryptoDeposit carry an id, an owner and an USDT amount. -/
structure DepositForBonus where
  id : Nat
  userId : UserId
  amountUSDT : Amount
  deriving DecidableEq, Repr

/-- OfflineDeposit.countDocuments({userId, status: VERIFIED}). -/
def priorVerifiedOfflineDeposits (offlineDeposits : List OfflineDeposit)
    (uid : UserId) : Nat :=
  (offlineDeposits.filter
    (fun d => d.userId = uid && d.status = OfflineDepositStatus.VERIFIED)).length

/-- CryptoDeposit.countDocuments({userId, status: CONFIRMED}). -/
def priorConfirmedCryptoDeposits (cryptoDeposits : List CryptoDeposit)
    (uid : UserId) : Nat :=
  (cryptoDeposits.filter
    (fun d => d.userId = uid && d.status = CryptoDepositStatus.CONFIRMED)).length

/-- Shared tail of the bonus awards: append one POSTED ledger entry and apply
the matching upsert increment of the recipient summary. -/
def postBonus (s : State) (e : LedgerEntry) : State :=
  { s with
    ledger := s.ledger ++ [e]
    summaries := upsertInc s.summaries e.userId e.amount e.amount
    nextLedgerId := s.nextLedgerId + 1 }

/-- awardDirectBonus from src/admin/payout.service.ts.  Counts the prior
VERIFIED offline deposits of the depositor (the check runs before the current
deposit is marked verified); the first deposit pays the original sponsor at
the fixed percentage, later deposits pay the placement parent at the
reinvestment percentage; no entry is written when the recipient is absent or
is the company. -/
def awardDirectBonus (s : State) (depositingUser : UserRec)
    (deposit : DepositForBonus) : State :=
  let priorVerifiedDeposits :=
    priorVerifiedOfflineDeposits s.offlineDeposits depositingUser.userId
  let isFirstDeposit := priorVerifiedDeposits = 0
  let recipientId : Option UserId :=
    if isFirstDeposit then depositingUser.originalSponsorId
    else depositingUser.parentId
  let bonusPct : ℚ :=
    if isFirstDeposit then FIRST_DEPOSIT_DIRECT_BONUS_PCT
    else getReinvestmentBonusPct priorVerifiedDeposits
  match recipientId with
  | none => s
  | some rid =>
    if rid = companySponsorId then s
    else
      let bonusAmount := deposit.amountUSDT * bonusPct
      postBonus s
        { id := s.nextLedgerId
          userId := rid
          type := LedgerEntryType.DIRECT
          amount := bonusAmount
          status := LedgerEntryStatus.POSTED
          createdBy := "SYSTEM_DEPOSIT_VERIFICATION"
          metaDepositId := some deposit.id
          metaBonusPct := some bonusPct
          metaSourceUserId := some depositingUser.userId }

/-- awardUnilevelBonus from src/admin/payout.service.ts, unrolled over the
upline with the running index i (the source loop).  A bonus amount that is
not positive is skipped without creating a ledger entry.  The source indexes
UNILEVEL_PCTS directly; callers always pass an upline no longer than the
schedule, and the embedding reads a missing percentage as zero. -/
def awardUnilevelFrom (depositingUser : UserRec) (deposit : DepositForBonus) :
    List UserRec → Nat → State → State
  | [], _, s => s
  | uplineUser :: rest, i, s =>
    let bonusPercentage := UNILEVEL_PCTS.getD i 0
    let bonusAmount := deposit.amountUSDT * bonusPercentage
    let s1 :=
      if bonusAmount ≤ 0 then s
      else
        postBonus s
          { id := s.nextLedgerId
            userId := uplineUser.userId
            type := LedgerEntryType.UNILEVEL
            amount := bonusAmount
            status := LedgerEntryStatus.POSTED
            createdBy := "SYSTEM_DEPOSIT_VERIFICATION"
            metaDepositId := some deposit.id
            metaBonusPct := some bonusPercentage
            metaLevel := some (i + 1)
            metaSourceUserId := some depositingUser.userId }
    awardUnilevelFrom depositingUser deposit rest (i + 1) s1

/-- awardUnilevelBonus from src/admin/payout.service.ts. -/
def awardUnilevelBonus (s : State) (upline : List UserRec)
    (depositingUser : UserRec) (deposit : DepositForBonus) : State :=
  awardUnilevelFrom depositingUser deposit upline 0 s

-- ---------------------------------------------------------------------------
-- Deposit verification / package activation
-- (src/admin/admin.service.ts verifyDepositAndActivatePackage and
--  src/wallet/wallet.service.ts processCryptoDeposit)
-- ---------------------------------------------------------------------------

/-- Shared package-update step: add the deposit amount to packageUSD,
recompute pvPoints as a tenth of the new package, and force the activation
flag on. -/
def activatePackageOn (u : UserRec) (amountUSDT : Amount) : UserRec :=
  { u with
    packageUSD := u.packageUSD + amountUSDT
    pvPoints := (u.packageUSD + amountUSDT) * (1/10)
    isPackageActive := true }

/-- verifyDepositAndActivatePackage from src/admin/admin.service.ts.  The
lineage snapshot, timestamps and the archived DeletedUser copy are not
modelled; every other persisted effect is.  The deposit must be PENDING
(idempotency guard), bonuses are awarded first (unilevel only when there is
no prior verified offline deposit), then the deposit and its ledger entry are
marked VERIFIED, the package is activated, a PACKAGE_ACTIVATION entry is
appended and the wallet summary row is created when absent. -/
def verifyDepositAndActivatePackage (s : State) (depositId : Nat)
    (adminUserId : String) : Except CustomError State := do
  let some deposit := s.offlineDeposits.find? (fun d => d.id = depositId)
    | throw ⟨ErrName.NotFoundError, "Deposit not found."⟩
  if deposit.status ≠ OfflineDepositStatus.PENDING then
    throw ⟨ErrName.ValidationError, "Deposit is not pending."⟩
  let some user := findUser s.users deposit.userId
    | throw ⟨ErrName.NotFoundError, "User not found."⟩
  let unilevelUpline := getUplineForUnilevel s.users user.parentId
  let priorVerifiedDeposits :=
    priorVerifiedOfflineDeposits s.offlineDeposits user.userId
  let depositForBonus : DepositForBonus :=
    ⟨deposit.id, deposit.userId, deposit.amountUSDT⟩
  let s1 := awardDirectBonus s user depositForBonus
  let s2 :=
    if priorVerifiedDeposits = 0 then
      awardUnilevelBonus s1 unilevelUpline user depositForBonus
    else s1
  let s3 := { s2 with
    offlineDeposits := replaceFirst (fun d => d.id = depositId)
      (fun d => { d with status := OfflineDepositStatus.VERIFIED })
      s2.offlineDeposits }
  let s4 := { s3 with
    ledger := replaceFirst
      (fun e => e.metaDepositId = some depositId &&
                e.type = LedgerEntryType.OFFLINE_DEPOSIT)
      (fun e => { e with status := LedgerEntryStatus.VERIFIED }) s3.ledger }
  let s5 := { s4 with
    users := replaceFirst (fun u => u.userId = user.userId)
      (fun u => activatePackageOn u deposit.amountUSDT) s4.users }
  let activationEntry : LedgerEntry :=
    { id := s5.nextLedgerId
      userId := user.userId
      type := LedgerEntryType.PACKAGE_ACTIVATION
      amount := deposit.amountUSDT
      status := LedgerEntryStatus.POSTED
      createdBy := adminUserId
      metaDepositId := some depositId }
  let s6 := { s5 with
    ledger := s5.ledger ++ [activationEntry]
    nextLedgerId := s5.nextLedgerId + 1 }
  pure ({ s6 with summaries := upsertTouch s6.summaries user.userId } : State)

/-- processCryptoDeposit from src/wallet/wallet.service.ts.  A webhook for a
deposit that is no longer PENDING returns without changing anything; a
payment-id mismatch is rejected; otherwise the direct bonus is always
awarded, the unilevel cascade only when the user has no prior CONFIRMED
crypto deposit, and the deposit is confirmed and the package activated as in
the offline path (createdBy SYSTEM_NOWPAYMENTS, and no OFFLINE_DEPOSIT ledger
entry exists to flip). -/
def processCryptoDeposit (s : State) (depositId : Nat)
    (nowPaymentsPaymentId : String) : Except CustomError State := do
  let some deposit := s.cryptoDeposits.find? (fun d => d.id = depositId)
    | throw ⟨ErrName.NotFoundError, "Crypto deposit not found."⟩
  if deposit.status ≠ CryptoDepositStatus.PENDING then
    pure s
  else if deposit.nowPaymentsPaymentId ≠ nowPaymentsPaymentId then
    throw ⟨ErrName.ValidationError, "NOWPayments Payment ID mismatch."⟩
  else do
    let some user := findUser s.users deposit.userId
      | throw ⟨ErrName.NotFoundError, "User not found."⟩
    let depositForBonus : DepositForBonus :=
      ⟨deposit.id, user.userId, deposit.amountUSDT⟩
    let s1 := awardDirectBonus s user depositForBonus
    let priorVerifiedDeposits :=
      priorConfirmedCryptoDeposits s1.cryptoDeposits user.userId
    let s2 :=
      if priorVerifiedDeposits = 0 then
        awardUnilevelBonus s1 (getUplineForUnilevel s1.users user.parentId)
          user depositForBonus
      else s1
    let s3 := { s2 with
      cryptoDeposits := replaceFirst (fun d => d.id = depositId)
        (fun d => { d with status := CryptoDepositStatus.CONFIRMED })
        s2.cryptoDeposits }
    let s4 := { s3 with
      users := replaceFirst (fun u => u.userId = user.userId)
        (fun u => activatePackageOn u deposit.amountUSDT) s3.users }
    let activationEntry : LedgerEntry :=
      { id := s4.nextLedgerId
        userId := user.userId
        type := LedgerEntryType.PACKAGE_ACTIVATION
        amount := deposit.amountUSDT
        status := LedgerEntryStatus.POSTED
        createdBy := "SYSTEM_NOWPAYMENTS" }
    let s5 := { s4 with
      ledger := s4.ledger ++ [activationEntry]
      nextLedgerId := s4.nextLedgerId + 1 }
    pure ({ s5 with summaries := upsertTouch s5.summaries user.userId } : State)

end Sagenex

namespace Sagenex

-- ---------------------------------------------------------------------------
-- Wallet operations (src/wallet/wallet.service.ts) and withdrawal management
-- (src/admin/admin.service.ts)
-- ---------------------------------------------------------------------------

/-- createWithdrawalRequest from src/wallet/wallet.service.ts: requires the
user, their wallet summary and VERIFIED KYC, a positive amount within the
available balance; records a PENDING negative WITHDRAWAL_REQUEST ledger entry
and debits the available balance immediately. -/
def createWithdrawalRequest (s : State) (userId : UserId) (amount : Amount)
    (withdrawalAddress : String) : Except CustomError State := do
  let some user := findUser s.users userId
    | throw ⟨ErrName.NotFoundError, "User not found."⟩
  let some summary := findSummary s.summaries userId
    | throw ⟨ErrName.NotFoundError, "Wallet not found."⟩
  if user.kycStatus ≠ KycStatus.VERIFIED then
    throw ⟨ErrName.AuthorizationError,
      "KYC must be verified before you can withdraw funds."⟩
  if amount ≤ 0 then
    throw ⟨ErrName.ValidationError, "Withdrawal amount must be positive."⟩
  if summary.availableToWithdraw < amount then
    throw ⟨ErrName.ValidationError, "Insufficient funds."⟩
  let entry : LedgerEntry :=
    { id := s.nextLedgerId
      userId := userId
      type := LedgerEntryType.WITHDRAWAL_REQUEST
      amount := -amount
      status := LedgerEntryStatus.PENDING
      createdBy := userId
      metaCounterpartyId := some withdrawalAddress }
  pure ({ s with
    ledger := s.ledger ++ [entry]
    summaries := incFirstAvailable s.summaries userId (-amount)
    nextLedgerId := s.nextLedgerId + 1 } : State)

/-- approveWithdrawal from src/admin/admin.service.ts: the PENDING
WITHDRAWAL_REQUEST entry transitions to PAID with no balance change (the
amount was already debited at request time). -/
def approveWithdrawal (s : State) (withdrawalId : Nat) (adminId : String) :
    Except CustomError State := do
  let some withdrawal := s.ledger.find? (fun e => e.id = withdrawalId)
    | throw ⟨ErrName.NotFoundError, "Withdrawal request not found."⟩
  if withdrawal.type ≠ LedgerEntryType.WITHDRAWAL_REQUEST then
    throw ⟨ErrName.NotFoundError, "Withdrawal request not found."⟩
  if withdrawal.status ≠ LedgerEntryStatus.PENDING then
    throw ⟨ErrName.ConflictError, "Cannot approve request."⟩
  pure ({ s with
    ledger := replaceFirst (fun e => e.id = withdrawalId)
      (fun e => { e with status := LedgerEntryStatus.PAID,
                         metaProcessedBy := some adminId }) s.ledger } : State)

/-- rejectWithdrawal from src/admin/admin.service.ts: refund the user by
incrementing the available balance by the negated (negative) ledger amount,
then mark the entry REJECTED.  The summary update has no upsert. -/
def rejectWithdrawal (s : State) (withdrawalId : Nat) (adminId : String)
    (reason : String) : Except CustomError State := do
  if reason = "" then
    throw ⟨ErrName.ValidationError, "A reason is required to reject a withdrawal."⟩
  let some withdrawal := s.ledger.find? (fun e => e.id = withdrawalId)
    | throw ⟨ErrName.NotFoundError, "Withdrawal request not found."⟩
  if withdrawal.type ≠ LedgerEntryType.WITHDRAWAL_REQUEST then
    throw ⟨ErrName.NotFoundError, "Withdrawal request not found."⟩
  if withdrawal.status ≠ LedgerEntryStatus.PENDING then
    throw ⟨ErrName.ConflictError, "Cannot reject request."⟩
  pure ({ s with
    summaries := incFirstAvailable s.summaries withdrawal.userId (-withdrawal.amount)
    ledger := replaceFirst (fun e => e.id = withdrawalId)
      (fun e => { e with status := LedgerEntryStatus.REJECTED,
                         metaProcessedBy := some adminId }) s.ledger } : State)

/-- Is the sender under an active OTP lockout at instant now
(wallet.service.ts line 142: lockout set and now strictly before it). -/
def lockoutActive (u : UserRec) (now : Time) : Bool :=
  match u.otpLockoutExpires with
  | some t => now < t
  | none => false

/-- The body of the mongoose transaction in executeTransfer
(src/wallet/wallet.service.ts).  Checks run in source order; every write is
staged on the session.  fault injects a thrown error at checkpoint k (numbered
1..4 after the sender debit), modelling an induced failure inside the
transaction.  The OTP mismatch branch stages an increment of
failedOtpAttempts (and the 1-hour lockout at five failures) and then throws;
since the throw aborts the surrounding transaction, that staged write is
discarded by the wrapper below, exactly as the session write at
wallet.service.ts lines 151-155 is rolled back by abortTransaction. -/
def executeTransferSteps (s : State) (senderId recipientId : UserId)
    (amount : Amount) (otp : String) (now : Time) (transactionId : String)
    (fault : Option Nat) : Except CustomError State := do
  if senderId = recipientId then
    throw ⟨ErrName.ValidationError, "Cannot transfer funds to yourself."⟩
  if amount ≤ 0 then
    throw ⟨ErrName.ValidationError, "Transfer amount must be a positive number."⟩
  let some sender := findUser s.users senderId
    | throw ⟨ErrName.NotFoundError, "Sender not found."⟩
  let some _recipient := findUser s.users recipientId
    | throw ⟨ErrName.NotFoundError, "Recipient not found."⟩
  let some senderWallet := findSummary s.summaries senderId
    | throw ⟨ErrName.NotFoundError, "Sender wallet not found."⟩
  if lockoutActive sender now then
    throw ⟨ErrName.AuthorizationError,
      "Account is locked due to too many failed OTP attempts."⟩
  let some storedOtpHash := sender.otp
    | throw ⟨ErrName.AuthorizationError, "No OTP has been generated."⟩
  let some otpExpires := sender.otpExpires
    | throw ⟨ErrName.AuthorizationError, "No OTP has been generated."⟩
  if now > otpExpires then
    throw ⟨ErrName.AuthorizationError, "OTP has expired."⟩
  if otp ≠ storedOtpHash then
    -- Staged on the session and discarded on abort: the failed-attempt
    -- increment and the conditional 1-hour lockout never reach the store.
    throw ⟨ErrName.AuthorizationError, "Invalid OTP."⟩
  if senderWallet.availableToWithdraw < amount then
    throw ⟨ErrName.ValidationError, "Insufficient funds."⟩
  let s1 := { s with
    summaries := incFirstAvailable s.summaries senderId (-amount) }
  if fault = some 1 then throw ⟨ErrName.InducedFault, "Induced failure."⟩
  let s2 := { s1 with
    summaries := upsertInc s1.summaries recipientId amount amount }
  if fault = some 2 then throw ⟨ErrName.InducedFault, "Induced failure."⟩
  let senderLedger : LedgerEntry :=
    { id := s2.nextLedgerId
      userId := senderId
      type := LedgerEntryType.TRANSFER_OUT
      amount := -amount
      status := LedgerEntryStatus.POSTED
      createdBy := senderId
      metaTransactionId := some transactionId
      metaCounterpartyId := some recipientId }
  let receiverLedger : LedgerEntry :=
    { id := s2.nextLedgerId + 1
      userId := recipientId
      type := LedgerEntryType.TRANSFER_IN
      amount := amount
      status := LedgerEntryStatus.POSTED
      createdBy := senderId
      metaTransactionId := some transactionId
      metaCounterpartyId := some senderId }
  let s3 := { s2 with
    ledger := s2.ledger ++ [senderLedger, receiverLedger]
    nextLedgerId := s2.nextLedgerId + 2 }
  if fault = some 3 then throw ⟨ErrName.InducedFault, "Induced failure."⟩
  let s4 := { s3 with
    users := replaceFirst (fun u => u.userId = senderId)
      (fun u => { u with
        otp := none
        otpExpires := none
        failedOtpAttempts := 0
        otpLockoutExpires := none }) s3.users }
  if fault = some 4 then throw ⟨ErrName.InducedFault, "Induced failure."⟩
  pure s4

/-- executeTransfer from src/wallet/wallet.service.ts: run the transaction
body; commit its staged state on success, or abort (returning the untouched
pre-state) and surface the error. -/
def executeTransfer (s : State) (senderId recipientId : UserId)
    (amount : Amount) (otp : String) (now : Time) (transactionId : String)
    (fault : Option Nat) : State × Except CustomError String :=
  match executeTransferSteps s senderId recipientId amount otp now
      transactionId fault with
  | Except.ok s1 => (s1, Except.ok transactionId)
  | Except.error e => (s, Except.error e)

-- ---------------------------------------------------------------------------
-- User deletion with fund sweep (src/admin/admin.service.ts deleteUser)
-- ---------------------------------------------------------------------------

/-- deleteUser from src/admin/admin.service.ts: blocked while the user has a
direct child; sweeps a positive available balance to the company root via a
paired FUND_TRANSFER_ON_DELETE debit/credit and a root summary upsert, then
deletes the wallet summary row and the user document.  The archived
DeletedUser copy is not modelled. -/
def deleteUser (s : State) (userId : UserId) (adminId : String) :
    Except CustomError State := do
  let some _user := findUser s.users userId
    | throw ⟨ErrName.NotFoundError, "User not found."⟩
  if countChildren s.users userId > 0 then
    throw ⟨ErrName.ConflictError, "Cannot delete user. User has direct children."⟩
  let s1 ←
    match findSummary s.summaries userId with
    | none => pure s
    | some walletSummary => do
      let totalFunds := walletSummary.availableToWithdraw
      let s1 ←
        if 0 < totalFunds then
          let debitLedger : LedgerEntry :=
            { id := s.nextLedgerId
              userId := userId
              type := LedgerEntryType.FUND_TRANSFER_ON_DELETE
              amount := -totalFunds
              status := LedgerEntryStatus.POSTED
              createdBy := adminId
              metaSourceUserId := some userId }
          let creditLedger : LedgerEntry :=
            { id := s.nextLedgerId + 1
              userId := companySponsorId
              type := LedgerEntryType.FUND_TRANSFER_ON_DELETE
              amount := totalFunds
              status := LedgerEntryStatus.POSTED
              createdBy := adminId
              metaSourceUserId := some userId }
          pure ({ s with
            ledger := s.ledger ++ [debitLedger, creditLedger]
            summaries := upsertInc s.summaries companySponsorId totalFunds totalFunds
            nextLedgerId := s.nextLedgerId + 2 } : State)
        else pure s
      pure ({ s1 with
        summaries := removeFirst (fun r => r.userId = userId) s1.summaries } : State)
  pure ({ s1 with
    users := removeFirst (fun u => u.userId = userId) s1.users } : State)

end Sagenex

namespace Sagenex

-- ---------------------------------------------------------------------------
-- Onboarding and placement (src/user/user.service.ts)
-- ---------------------------------------------------------------------------

/-- Input of createNewUser (the designee-aware revision at
src/user/user.service.ts lines 954-1037). -/
structure NewUserInput where
  fullName : String
  email : String
  sponsorId : Option String := none
  placementDesigneeId : Option UserId := none
  deriving DecidableEq, Repr

/-- createNewUser from src/user/user.service.ts (designee-aware revision).
The generated sequential userId and the random referral code are passed in as
parameters.  A sponsor below the width cap must not receive a designee; a
full sponsor requires a designee that is one of its direct children and is
itself below the cap, in which case the new user is placed under the designee
with isSplitSponsor true.  All checks precede the single insert. -/
def createNewUser (s : State) (input : NewUserInput) (newUserId : UserId)
    (referralCode : String) : Except CustomError (State × UserRec) := do
  if input.fullName = "" || input.email = "" then
    throw ⟨ErrName.ValidationError, "Full name and email are required."⟩
  if s.users.any (fun u => u.email = input.email) then
    throw ⟨ErrName.ConflictError, "Email already exists."⟩
  let effectiveSponsorId := input.sponsorId.getD companySponsorId
  let placement ←
    if effectiveSponsorId = companySponsorId then
      pure (some companySponsorId, some companySponsorId, false)
    else do
      let some originalSponsor := s.users.find?
          (fun u => u.userId = effectiveSponsorId ||
                    u.referralCode = effectiveSponsorId)
        | throw ⟨ErrName.NotFoundError, "Sponsor not found."⟩
      let sponsorDirectCount := countChildren s.users originalSponsor.userId
      if sponsorDirectCount < directWidthCap then do
        if input.placementDesigneeId.isSome then
          throw ⟨ErrName.ValidationError, "Designee not allowed; sponsor has capacity."⟩
        pure (some originalSponsor.userId, some originalSponsor.userId, false)
      else do
        let some designeeId := input.placementDesigneeId
          | throw ⟨ErrName.ValidationError,
              "Sponsor is full; a placement designee is required."⟩
        let some designee := findUser s.users designeeId
          | throw ⟨ErrName.ValidationError,
              "Designee must be one of the sponsor direct children."⟩
        if designee.parentId ≠ some originalSponsor.userId then
          throw ⟨ErrName.ValidationError,
            "Designee must be one of the sponsor direct children."⟩
        let designeeDirectCount := countChildren s.users designee.userId
        if designeeDirectCount ≥ directWidthCap then
          throw ⟨ErrName.ConflictError,
            "Selected designee already has 6 directs. Pick a different designee."⟩
        pure (some originalSponsor.userId, some designee.userId, true)
  let (originalSponsorId, parentId, isSplitSponsor) := placement
  let newUser : UserRec :=
    { userId := newUserId
      fullName := input.fullName
      email := input.email
      referralCode := referralCode
      originalSponsorId := originalSponsorId
      parentId := parentId
      isSplitSponsor := isSplitSponsor
      packageUSD := 0
      pvPoints := 0
      isPackageActive := false
      kycStatus := KycStatus.NOT_SUBMITTED }
  pure (({ s with users := s.users ++ [newUser] } : State), newUser)

/-- getPlacementQueue from src/user/user.service.ts: the unplaced users of a
sponsor (parentId still null); the dateJoined sort is not modelled. -/
def getPlacementQueue (s : State) (sponsorId : UserId) : List UserRec :=
  s.users.filter
    (fun u => u.originalSponsorId = some sponsorId && u.parentId = none)

/-- Truthiness check at user.service.ts line 662: a deadline is set and now
is strictly past it. -/
def deadlineExpired (u : UserRec) (now : Time) : Bool :=
  match u.placementDeadline with
  | some deadline => now > deadline
  | none => false

/-- placeUser from src/user/user.service.ts lines 638-681.  All documents are
fetched and validated; the capacity of the placement parent is checked; then
the fetched newUser document is mutated in memory (parentId, isSplitSponsor,
cleared placementDeadline) and returned.  The source never calls save on it,
so the returned database state is the unchanged input state paired with the
mutated in-memory copy. -/
def placeUser (s : State) (sponsorId newUserId placementParentId : UserId)
    (now : Time) : Except CustomError (State × UserRec) := do
  let some newUser := findUser s.users newUserId
    | throw ⟨ErrName.NotFoundError, "User to be placed not found."⟩
  let some _sponsor := findUser s.users sponsorId
    | throw ⟨ErrName.NotFoundError, "Sponsor not found."⟩
  let some placementParent := findUser s.users placementParentId
    | throw ⟨ErrName.NotFoundError, "Placement parent not found."⟩
  if newUser.parentId ≠ none then
    throw ⟨ErrName.ConflictError, "This user has already been placed."⟩
  if newUser.originalSponsorId ≠ some sponsorId then
    throw ⟨ErrName.AuthorizationError, "You are not the original sponsor for this user."⟩
  if deadlineExpired newUser now then
    throw ⟨ErrName.ConflictError, "The 48-hour manual placement window has expired."⟩
  if placementParentId ≠ sponsorId && placementParent.parentId ≠ some sponsorId then
    throw ⟨ErrName.ValidationError,
      "Invalid placement. Designee must be a direct child of the sponsor."⟩
  if countChildren s.users placementParentId ≥ directWidthCap then
    throw ⟨ErrName.ConflictError, "Placement parent already has 6 direct members."⟩
  let placed : UserRec :=
    { newUser with
      parentId := some placementParentId
      isSplitSponsor := placementParentId ≠ sponsorId
      placementDeadline := none }
  pure ((s, placed) : State × UserRec)

end Sagenex

namespace Sagenex

-- ---------------------------------------------------------------------------
-- Shared concrete fixtures for witnesses and counterexamples
-- ---------------------------------------------------------------------------

/-- Small user-record builder for concrete test states. -/
def mkUser (uid : UserId) (sponsor parent : Option UserId) : UserRec :=
  { userId := uid
    fullName := uid
    email := uid
    referralCode := uid
    originalSponsorId := sponsor
    parentId := parent
    isSplitSponsor := false
    packageUSD := 0
    pvPoints := 0
    isPackageActive := false
    kycStatus := KycStatus.NOT_SUBMITTED }

/-- Empty database state. -/
def emptyState : State :=
  { users := []
    summaries := []
    ledger := []
    offlineDeposits := []
    cryptoDeposits := []
    nextLedgerId := 0 }

-- ---------------------------------------------------------------------------
-- C10: the two revisions of getTieredROIRate
-- ---------------------------------------------------------------------------

/-- C10 counterexample: the two configuration revisions of getTieredROIRate
are not extensionally equal; at package value 2000 the first revision yields
12 percent and the second 10 percent. -/
theorem C10_counterexample :
    PayoutsConfigA.getTieredROIRate 2000 = 12/100 ∧
    PayoutsConfigB.getTieredROIRate 2000 = 10/100 ∧
    PayoutsConfigA.getTieredROIRate 2000 ≠ PayoutsConfigB.getTieredROIRate 2000 := by
  refine ⟨?_, ?_, ?_⟩ <;>
    norm_num [PayoutsConfigA.getTieredROIRate, PayoutsConfigB.getTieredROIRate]

set_option maxHeartbeats 1600000 in
/-- C10 (amended): the two revisions of getTieredROIRate agree at every
non-negative package value outside the two bands 300 to 500 and 2000 to 2500;
on the first band the first revision returns 6 percent and the second 7
percent, and on the second band they return 12 and 10 percent respectively. -/
theorem C10_roi_rates_agree_except_two_bands (x : ℚ) (hx : 0 ≤ x) :
    ((x < 300 ∨ (500 ≤ x ∧ x < 2000) ∨ 2500 ≤ x) →
      PayoutsConfigA.getTieredROIRate x = PayoutsConfigB.getTieredROIRate x) ∧
    (300 ≤ x → x < 500 →
      PayoutsConfigA.getTieredROIRate x = 6/100 ∧
      PayoutsConfigB.getTieredROIRate x = 7/100) ∧
    (2000 ≤ x → x < 2500 →
      PayoutsConfigA.getTieredROIRate x = 12/100 ∧
      PayoutsConfigB.getTieredROIRate x = 10/100) := by
  unfold PayoutsConfigA.getTieredROIRate PayoutsConfigB.getTieredROIRate
  refine ⟨?_, ?_, ?_⟩
  · rintro (h | ⟨h1, h2⟩ | h) <;> split_ifs <;> first | rfl | linarith
  · intro h1 h2
    constructor <;> split_ifs <;> first | rfl | linarith
  · intro h1 h2
    constructor <;> split_ifs <;> first | rfl | linarith

/-- C10 witness: the amended agreement theorem applied at package value 700. -/
theorem C10_roi_rates_agree_witness :
    PayoutsConfigA.getTieredROIRate 700 = PayoutsConfigB.getTieredROIRate 700 := by
  have h := C10_roi_rates_agree_except_two_bands 700 (by norm_num)
  exact h.1 (Or.inr (Or.inl ⟨by norm_num, by norm_num⟩))

end Sagenex

namespace Sagenex

-- ---------------------------------------------------------------------------
-- C9: placeUser mutates only the in-memory document
-- ---------------------------------------------------------------------------

/-- C9: a successful placeUser call (queued member, live deadline, authorized
original sponsor, valid designee below the width cap) returns the mutated
in-memory user record but leaves the persisted state untouched: the result
state is exactly the input state, the stored member still has a null parent,
and the member is still in the placement queue of the sponsor. -/
theorem C9_placeUser_issues_no_write
    (s : State) (sponsorId newUserId placementParentId : UserId) (now : Time)
    (newUser sponsor placementParent : UserRec)
    (hnu : findUser s.users newUserId = some newUser)
    (hsp : findUser s.users sponsorId = some sponsor)
    (hpp : findUser s.users placementParentId = some placementParent)
    (hq : newUser.parentId = none)
    (hauth : newUser.originalSponsorId = some sponsorId)
    (hdl : deadlineExpired newUser now = false)
    (hdes : placementParentId = sponsorId ∨ placementParent.parentId = some sponsorId)
    (hcap : countChildren s.users placementParentId < directWidthCap) :
    placeUser s sponsorId newUserId placementParentId now =
      Except.ok (s, { newUser with
        parentId := some placementParentId
        isSplitSponsor := decide (placementParentId ≠ sponsorId)
        placementDeadline := none }) ∧
    findUser s.users newUserId = some newUser ∧
    newUser.parentId = none ∧
    newUser ∈ getPlacementQueue s sponsorId := by
  have hmem : newUser ∈ s.users := List.mem_of_find?_eq_some hnu
  refine ⟨?_, hnu, hq, ?_⟩
  · unfold placeUser
    rw [hnu, hsp, hpp]
    simp only [hq, hauth, hdl]
    have hdes2 : (decide (placementParentId ≠ sponsorId) &&
        decide (placementParent.parentId ≠ some sponsorId)) = false := by
      rcases hdes with h | h <;> simp [h]
    simp only [ne_eq, hdes2]
    simp [Nat.not_le.mpr hcap]
    rfl
  · unfold getPlacementQueue
    rw [List.mem_filter]
    exact ⟨hmem, by simp [hauth, hq]⟩

end Sagenex

namespace Sagenex

/-- Sponsor record for the C9 witness state. -/
def C9Sponsor : UserRec := mkUser "S" none (some companySponsorId)

/-- Queued member for the C9 witness state: unplaced, sponsored by S, with a
live placement deadline. -/
def C9QueuedUser : UserRec :=
  { mkUser "N" (some "S") none with placementDeadline := some 100 }

/-- Witness state for C9. -/
def C9State : State := { emptyState with users := [C9Sponsor, C9QueuedUser] }

/-- C9 witness: the frame theorem applied to the concrete queued member N
being placed by sponsor S under S itself before the deadline. -/
theorem C9_placeUser_issues_no_write_witness :
    placeUser C9State "S" "N" "S" 50 =
      Except.ok (C9State, { C9QueuedUser with
        parentId := some "S"
        isSplitSponsor := decide (("S" : UserId) ≠ "S")
        placementDeadline := none }) ∧
    findUser C9State.users "N" = some C9QueuedUser ∧
    C9QueuedUser.parentId = none ∧
    C9QueuedUser ∈ getPlacementQueue C9State "S" :=
  C9_placeUser_issues_no_write C9State "S" "N" "S" 50 C9QueuedUser C9Sponsor
    C9Sponsor (by decide) (by decide) (by decide) (by decide) (by decide)
    (by decide) (Or.inl rfl) (by decide)

end Sagenex

namespace Sagenex

/-- Decidable equality for Except results, used to evaluate the operations on
concrete states. -/
instance {e a : Type} [DecidableEq e] [DecidableEq a] : DecidableEq (Except e a) :=
  fun x y =>
    match x, y with
    | Except.ok v, Except.ok w =>
      if h : v = w then isTrue (by rw [h])
      else isFalse (by intro hh; injection hh; contradiction)
    | Except.error v, Except.error w =>
      if h : v = w then isTrue (by rw [h])
      else isFalse (by intro hh; injection hh; contradiction)
    | Except.ok _, Except.error _ => isFalse (by intro hh; injection hh)
    | Except.error _, Except.ok _ => isFalse (by intro hh; injection hh)

-- ---------------------------------------------------------------------------
-- C3: failed-OTP attempts inside the aborted transaction
-- ---------------------------------------------------------------------------

/-- Sender record for the C3 state: a stored, unexpired OTP hash ("123456"),
a zero failed-attempt counter and no lockout. -/
def C3Sender : UserRec :=
  { mkUser "U1" (some companySponsorId) (some companySponsorId) with
    otp := some "123456"
    otpExpires := some 1000
    failedOtpAttempts := 0 }

/-- Concrete state for C3: sender U1 with wallet balance 100 and a fresh OTP,
plus recipient U2. -/
def C3State : State :=
  { emptyState with
    users := [C3Sender, mkUser "U2" (some companySponsorId) (some companySponsorId)]
    summaries := [{ userId := "U1", availableToWithdraw := 100, lifetimeEarnings := 100 }] }

/-- C3: a transfer submission with a wrong OTP is rejected, but the
failed-attempt increment of wallet.service.ts lines 151-155 is saved through
the very session that the subsequent throw aborts, so the persisted state is
completely unchanged: the stored failed-attempt counter stays at 0 and no
lockout can ever be reached through this path.  This contradicts the claim
that each mismatch increments the persisted counter and that the fifth
mismatch sets a one-hour lockout. -/
theorem C3_failed_otp_counter_not_persisted :
    executeTransfer C3State "U1" "U2" 10 "999999" 500 "T-X" none =
      (C3State, Except.error ⟨ErrName.AuthorizationError, "Invalid OTP."⟩) ∧
    (findUser C3State.users "U1").map (fun u => u.failedOtpAttempts) = some 0 ∧
    (findUser C3State.users "U1").map (fun u => u.otpLockoutExpires) =
      some none := by
  refine ⟨?_, by decide, by decide⟩
  decide

-- ---------------------------------------------------------------------------
-- C4: unilevel bonus re-triggered across the two deposit paths
-- ---------------------------------------------------------------------------

/-- Number of UNILEVEL ledger entries in a ledger. -/
def countUnilevelEntries (ledger : List LedgerEntry) : Nat :=
  (ledger.filter (fun e => e.type = LedgerEntryType.UNILEVEL)).length

/-- Concrete state for C4: the chain U3 -> U2 -> U1 -> company; U3 already has
one VERIFIED offline deposit (its first verified deposit, long settled) and a
PENDING crypto deposit id 1. -/
def C4State : State :=
  { emptyState with
    users := [mkUser "U1" (some companySponsorId) (some companySponsorId),
              mkUser "U2" (some "U1") (some "U1"),
              mkUser "U3" (some "U2") (some "U2")]
    offlineDeposits := [{ id := 7, userId := "U3", amountUSDT := 100,
                          status := OfflineDepositStatus.VERIFIED }]
    cryptoDeposits := [{ id := 1, userId := "U3", amountUSDT := 50,
                         status := CryptoDepositStatus.PENDING,
                         nowPaymentsPaymentId := "PAY1" }]
    nextLedgerId := 10 }

/-- C4: verifying the crypto deposit of a member whose first verified deposit
was an offline deposit creates UNILEVEL ledger entries again, because
processCryptoDeposit counts only CONFIRMED crypto deposits when deciding
whether this is the first verified deposit.  U3 already has one VERIFIED
offline deposit, yet the crypto verification posts a fresh unilevel cascade
(here one entry, to grandparent U1). -/
theorem C4_unilevel_retriggered_on_second_deposit :
    priorVerifiedOfflineDeposits C4State.offlineDeposits "U3" = 1 ∧
    countUnilevelEntries C4State.ledger = 0 ∧
    (processCryptoDeposit C4State 1 "PAY1").toOption.map
      (fun s1 => countUnilevelEntries s1.ledger) = some 1 := by
  refine ⟨by decide, by decide, ?_⟩
  with_unfolding_all decide

-- ---------------------------------------------------------------------------
-- C6: double verification
-- ---------------------------------------------------------------------------

/-- Concrete state for C6: an already VERIFIED offline deposit id 1 owned by
U1, and an already CONFIRMED crypto deposit id 2. -/
def C6State : State :=
  { emptyState with
    users := [mkUser "U1" (some companySponsorId) (some companySponsorId)]
    offlineDeposits := [{ id := 1, userId := "U1", amountUSDT := 100,
                          status := OfflineDepositStatus.VERIFIED }]
    cryptoDeposits := [{ id := 2, userId := "U1", amountUSDT := 50,
                         status := CryptoDepositStatus.CONFIRMED,
                         nowPaymentsPaymentId := "PAY2" }] }

/-- C6 counterexample: re-verifying an already verified offline deposit does
fail, but with ValidationError, not with the ConflictError the claim allows,
and it is not a successful no-op return either. -/
theorem C6_counterexample :
    verifyDepositAndActivatePackage C6State 1 "ADMIN" =
      Except.error ⟨ErrName.ValidationError, "Deposit is not pending."⟩ ∧
    ErrName.ValidationError ≠ ErrName.ConflictError := by
  exact ⟨by decide, by decide⟩

end Sagenex

namespace Sagenex

/-- C6 (amended): verification succeeds only on a PENDING event, and a second
verification call posts no bonuses and changes no state.  The offline path
fails with ValidationError (the error is thrown before any write, so no state
change and no bonus is posted); the crypto path returns the state unchanged;
and any successful offline or state-changing crypto verification implies the
event was PENDING. -/
theorem C6_double_verification_never_double_pays
    (s : State) (depositId : Nat) (adminId paymentId : String) :
    (∀ d, s.offlineDeposits.find? (fun x => x.id = depositId) = some d →
      d.status ≠ OfflineDepositStatus.PENDING →
      verifyDepositAndActivatePackage s depositId adminId =
        Except.error ⟨ErrName.ValidationError, "Deposit is not pending."⟩) ∧
    (∀ d, s.cryptoDeposits.find? (fun x => x.id = depositId) = some d →
      d.status ≠ CryptoDepositStatus.PENDING →
      processCryptoDeposit s depositId paymentId = Except.ok s) ∧
    (∀ s1, verifyDepositAndActivatePackage s depositId adminId = Except.ok s1 →
      ∃ d, s.offlineDeposits.find? (fun x => x.id = depositId) = some d ∧
        d.status = OfflineDepositStatus.PENDING) ∧
    (∀ s1, processCryptoDeposit s depositId paymentId = Except.ok s1 →
      s1 = s ∨
      ∃ d, s.cryptoDeposits.find? (fun x => x.id = depositId) = some d ∧
        d.status = CryptoDepositStatus.PENDING) := by
  have hOff : ∀ d, s.offlineDeposits.find? (fun x => x.id = depositId) = some d →
      d.status ≠ OfflineDepositStatus.PENDING →
      verifyDepositAndActivatePackage s depositId adminId =
        Except.error ⟨ErrName.ValidationError, "Deposit is not pending."⟩ := by
    intro d hfind hstat
    unfold verifyDepositAndActivatePackage
    rw [hfind]
    show (if d.status ≠ OfflineDepositStatus.PENDING then _ else _) = _
    rw [if_pos hstat]
    rfl
  have hCry : ∀ d, s.cryptoDeposits.find? (fun x => x.id = depositId) = some d →
      d.status ≠ CryptoDepositStatus.PENDING →
      processCryptoDeposit s depositId paymentId = Except.ok s := by
    intro d hfind hstat
    unfold processCryptoDeposit
    rw [hfind]
    show (if d.status ≠ CryptoDepositStatus.PENDING then _ else _) = _
    rw [if_pos hstat]
    rfl
  refine ⟨hOff, hCry, ?_, ?_⟩
  · intro s1 hok
    cases hfind : s.offlineDeposits.find? (fun x => x.id = depositId) with
    | none =>
      have hne : verifyDepositAndActivatePackage s depositId adminId =
          Except.error ⟨ErrName.NotFoundError, "Deposit not found."⟩ := by
        unfold verifyDepositAndActivatePackage
        rw [hfind]
        rfl
      rw [hne] at hok
      exact Except.noConfusion hok
    | some d =>
      by_cases hstat : d.status = OfflineDepositStatus.PENDING
      · exact ⟨d, rfl, hstat⟩
      · rw [hOff d hfind hstat] at hok
        exact Except.noConfusion hok
  · intro s1 hok
    cases hfind : s.cryptoDeposits.find? (fun x => x.id = depositId) with
    | none =>
      have hne : processCryptoDeposit s depositId paymentId =
          Except.error ⟨ErrName.NotFoundError, "Crypto deposit not found."⟩ := by
        unfold processCryptoDeposit
        rw [hfind]
        rfl
      rw [hne] at hok
      exact Except.noConfusion hok
    | some d =>
      by_cases hstat : d.status = CryptoDepositStatus.PENDING
      · exact Or.inr ⟨d, rfl, hstat⟩
      · rw [hCry d hfind hstat] at hok
        exact Or.inl (Except.ok.inj hok).symm

/-- C6 witness: the amended theorem applied to the concrete state with an
already VERIFIED offline deposit id 1 and an already CONFIRMED crypto deposit
id 2: the former is rejected with ValidationError, the latter is a no-op. -/
theorem C6_double_verification_witness :
    verifyDepositAndActivatePackage C6State 1 "ADMIN" =
      Except.error ⟨ErrName.ValidationError, "Deposit is not pending."⟩ ∧
    processCryptoDeposit C6State 2 "PAY2" = Except.ok C6State :=
  ⟨(C6_double_verification_never_double_pays C6State 1 "ADMIN" "PAY2").1
      { id := 1, userId := "U1", amountUSDT := 100,
        status := OfflineDepositStatus.VERIFIED } (by decide) (by decide),
   (C6_double_verification_never_double_pays C6State 2 "ADMIN" "PAY2").2.1
      { id := 2, userId := "U1", amountUSDT := 50,
        status := CryptoDepositStatus.CONFIRMED, nowPaymentsPaymentId := "PAY2" }
      (by decide) (by decide)⟩

end Sagenex

namespace Sagenex

-- ---------------------------------------------------------------------------
-- Lemmas about the mongo list primitives
-- ---------------------------------------------------------------------------

theorem replaceFirst_of_find?_none {α : Type} (p : α → Bool) (f : α → α)
    (l : List α) (h : l.find? p = none) : replaceFirst p f l = l := by
  induction l with
  | nil => rfl
  | cons x xs ih =>
    rw [List.find?_cons] at h
    cases hp : p x with
    | true => rw [hp] at h; exact absurd h (by simp)
    | false =>
      rw [hp] at h
      simp [replaceFirst, hp, ih h]

theorem find?_replaceFirst_pres {α : Type} (p : α → Bool) (f : α → α)
    (hf : ∀ a, p a = true → p (f a) = true) (l : List α) :
    (replaceFirst p f l).find? p = (l.find? p).map f := by
  induction l with
  | nil => rfl
  | cons x xs ih =>
    cases hp : p x with
    | true =>
      simp only [replaceFirst, hp, if_true]
      rw [List.find?_cons_of_pos _ (hf x hp), List.find?_cons_of_pos _ hp]
      rfl
    | false =>
      simp [replaceFirst, hp, List.find?_cons_of_neg _ (by simp [hp] : ¬ p x = true), ih]

theorem find?_replaceFirst_other {α : Type} (p q : α → Bool) (f : α → α)
    (hq : ∀ a, p a = true → q a = false ∧ q (f a) = false) (l : List α) :
    (replaceFirst p f l).find? q = l.find? q := by
  induction l with
  | nil => rfl
  | cons x xs ih =>
    cases hp : p x with
    | true =>
      simp only [replaceFirst, hp, if_true]
      rw [List.find?_cons_of_neg _ (by simp [(hq x hp).2]),
          List.find?_cons_of_neg _ (by simp [(hq x hp).1])]
    | false =>
      simp only [replaceFirst, hp]
      simp only [Bool.false_eq_true, if_false]
      rw [List.find?_cons, List.find?_cons]
      cases q x <;> simp [ih]

theorem mem_replaceFirst {α : Type} {p : α → Bool} {f : α → α} {l : List α}
    {a : α} (h : a ∈ replaceFirst p f l) :
    a ∈ l ∨ ∃ b, b ∈ l ∧ p b = true ∧ a = f b := by
  induction l with
  | nil => simp [replaceFirst] at h
  | cons x xs ih =>
    cases hp : p x with
    | true =>
      rw [replaceFirst, hp, if_pos rfl] at h
      rcases List.mem_cons.mp h with h1 | h1
      · exact Or.inr ⟨x, List.mem_cons_self x xs, hp, h1⟩
      · exact Or.inl (List.mem_cons_of_mem x h1)
    | false =>
      rw [replaceFirst, hp] at h
      simp only [Bool.false_eq_true, if_false] at h
      rcases List.mem_cons.mp h with h1 | h1
      · exact Or.inl (h1 ▸ List.mem_cons_self x xs)
      · rcases ih h1 with h2 | ⟨b, hb, hpb, hab⟩
        · exact Or.inl (List.mem_cons_of_mem x h2)
        · exact Or.inr ⟨b, List.mem_cons_of_mem x hb, hpb, hab⟩

theorem map_replaceFirst_eq {α β : Type} (p : α → Bool) (f : α → α)
    (g : α → β) (hg : ∀ a, g (f a) = g a) (l : List α) :
    (replaceFirst p f l).map g = l.map g := by
  induction l with
  | nil => rfl
  | cons x xs ih =>
    cases hp : p x with
    | true => simp [replaceFirst, hp, hg]
    | false => simp [replaceFirst, hp, ih]

theorem mem_removeFirst {α : Type} {p : α → Bool} {l : List α} {a : α}
    (h : a ∈ removeFirst p l) : a ∈ l := by
  induction l with
  | nil => simp [removeFirst] at h
  | cons x xs ih =>
    cases hp : p x with
    | true =>
      rw [removeFirst, hp, if_pos rfl] at h
      exact List.mem_cons_of_mem x h
    | false =>
      rw [removeFirst, hp] at h
      simp only [Bool.false_eq_true, if_false] at h
      rcases List.mem_cons.mp h with h1 | h1
      · exact h1 ▸ List.mem_cons_self x xs
      · exact List.mem_cons_of_mem x (ih h1)

theorem find?_removeFirst_other {α : Type} (p q : α → Bool)
    (hq : ∀ a, p a = true → q a = false) (l : List α) :
    (removeFirst p l).find? q = l.find? q := by
  induction l with
  | nil => rfl
  | cons x xs ih =>
    cases hp : p x with
    | true =>
      simp only [removeFirst, hp, if_true]
      rw [List.find?_cons_of_neg _ (by simp [hq x hp])]
    | false =>
      simp only [removeFirst, hp]
      simp only [Bool.false_eq_true, if_false]
      rw [List.find?_cons, List.find?_cons]
      cases q x <;> simp [ih]

theorem map_removeFirst_sublist {α β : Type} (p : α → Bool) (g : α → β)
    (l : List α) : ((removeFirst p l).map g).Sublist (l.map g) := by
  induction l with
  | nil => simp [removeFirst]
  | cons x xs ih =>
    cases hp : p x with
    | true =>
      simp only [removeFirst, hp, if_true, List.map_cons]
      exact (List.sublist_cons_self _ _)
    | false =>
      simp only [removeFirst, hp]
      simp only [Bool.false_eq_true, if_false, List.map_cons]
      exact ih.cons₂ _

theorem find?_append_none {α : Type} (p : α → Bool) (l1 l2 : List α)
    (h : l1.find? p = none) : (l1 ++ l2).find? p = l2.find? p := by
  induction l1 with
  | nil => rfl
  | cons x xs ih =>
    rw [List.find?_cons] at h
    cases hp : p x with
    | true => rw [hp] at h; exact absurd h (by simp)
    | false =>
      rw [hp] at h
      rw [List.cons_append, List.find?_cons_of_neg _ (by simp [hp])]
      exact ih h

theorem find?_append_some {α : Type} (p : α → Bool) (l1 l2 : List α) {a : α}
    (h : l1.find? p = some a) : (l1 ++ l2).find? p = some a := by
  induction l1 with
  | nil => simp at h
  | cons x xs ih =>
    rw [List.find?_cons] at h
    cases hp : p x with
    | true =>
      rw [hp] at h
      rw [List.cons_append, List.find?_cons_of_pos _ hp]
      simpa using h
    | false =>
      rw [hp] at h
      rw [List.cons_append, List.find?_cons_of_neg _ (by simp [hp])]
      exact ih h

end Sagenex

namespace Sagenex

-- ---------------------------------------------------------------------------
-- Observables on wallet summaries
-- ---------------------------------------------------------------------------

/-- Available balance read with a zero default for a missing row. -/
def summaryAvail (summaries : List WalletSummary) (uid : UserId) : Amount :=
  ((findSummary summaries uid).map (fun r => r.availableToWithdraw)).getD 0

/-- Lifetime earnings read with a zero default for a missing row. -/
def summaryLifetime (summaries : List WalletSummary) (uid : UserId) : Amount :=
  ((findSummary summaries uid).map (fun r => r.lifetimeEarnings)).getD 0

theorem findSummary_upsertInc_self (l : List WalletSummary) (uid : UserId)
    (da dl : Amount) :
    findSummary (upsertInc l uid da dl) uid =
      some (match findSummary l uid with
        | some r => { r with
            availableToWithdraw := r.availableToWithdraw + da
            lifetimeEarnings := r.lifetimeEarnings + dl }
        | none => { userId := uid, availableToWithdraw := da, lifetimeEarnings := dl }) := by
  unfold upsertInc findSummary
  cases hany : l.any (fun r => r.userId = uid) with
  | true =>
    simp only [hany, if_true]
    rw [find?_replaceFirst_pres _ _ (fun a ha => by simpa using ha) l]
    cases hf : l.find? (fun r => decide (r.userId = uid)) with
    | none =>
      rw [List.find?_eq_none] at hf
      rcases List.any_eq_true.mp hany with ⟨r, hr, hru⟩
      exact absurd hru (by simpa using hf r hr)
    | some r => rfl
  | false =>
    simp only [hany, Bool.false_eq_true, if_false]
    have hnone : l.find? (fun r => decide (r.userId = uid)) = none := by
      rw [List.find?_eq_none]
      intro a ha
      have := (List.any_eq_false).mp hany a ha
      simpa using this
    rw [find?_append_none _ _ _ hnone, hnone]
    simp [List.find?_cons_of_pos]

theorem findSummary_upsertInc_other (l : List WalletSummary) (uid v : UserId)
    (da dl : Amount) (hne : v ≠ uid) :
    findSummary (upsertInc l uid da dl) v = findSummary l v := by
  unfold upsertInc findSummary
  cases hany : l.any (fun r => r.userId = uid) with
  | true =>
    simp only [hany, if_true]
    exact find?_replaceFirst_other _ _ _
      (fun a ha => by
        have : a.userId = uid := by simpa using ha
        constructor <;> simp [this, hne.symm]) l
  | false =>
    simp only [hany, Bool.false_eq_true, if_false]
    cases hf : l.find? (fun r => decide (r.userId = v)) with
    | none =>
      rw [find?_append_none _ _ _ hf]
      simp [List.find?_cons, hne.symm]
    | some r => exact find?_append_some _ _ _ hf

theorem findSummary_upsertTouch_self (l : List WalletSummary) (uid : UserId) :
    findSummary (upsertTouch l uid) uid =
      some ((findSummary l uid).getD
        { userId := uid, availableToWithdraw := 0, lifetimeEarnings := 0 }) := by
  unfold upsertTouch findSummary
  cases hany : l.any (fun r => r.userId = uid) with
  | true =>
    simp only [hany, if_true]
    cases hf : l.find? (fun r => decide (r.userId = uid)) with
    | none =>
      rw [List.find?_eq_none] at hf
      rcases List.any_eq_true.mp hany with ⟨r, hr, hru⟩
      exact absurd hru (by simpa using hf r hr)
    | some r => rfl
  | false =>
    simp only [hany, Bool.false_eq_true, if_false]
    have hnone : l.find? (fun r => decide (r.userId = uid)) = none := by
      rw [List.find?_eq_none]
      intro a ha
      have := (List.any_eq_false).mp hany a ha
      simpa using this
    rw [find?_append_none _ _ _ hnone, hnone]
    simp [List.find?_cons_of_pos]

theorem findSummary_upsertTouch_other (l : List WalletSummary) (uid v : UserId)
    (hne : v ≠ uid) :
    findSummary (upsertTouch l uid) v = findSummary l v := by
  unfold upsertTouch findSummary
  cases hany : l.any (fun r => r.userId = uid) with
  | true => simp only [hany, if_true]
  | false =>
    simp only [hany, Bool.false_eq_true, if_false]
    cases hf : l.find? (fun r => decide (r.userId = v)) with
    | none =>
      rw [find?_append_none _ _ _ hf]
      simp [List.find?_cons, hne.symm]
    | some r => exact find?_append_some _ _ _ hf

theorem findSummary_incFirstAvailable_self (l : List WalletSummary)
    (uid : UserId) (da : Amount) :
    findSummary (incFirstAvailable l uid da) uid =
      (findSummary l uid).map
        (fun r => { r with availableToWithdraw := r.availableToWithdraw + da }) := by
  unfold incFirstAvailable findSummary
  exact find?_replaceFirst_pres _ _ (fun a ha => by simpa using ha) l

theorem findSummary_incFirstAvailable_other (l : List WalletSummary)
    (uid v : UserId) (da : Amount) (hne : v ≠ uid) :
    findSummary (incFirstAvailable l uid da) v = findSummary l v := by
  unfold incFirstAvailable findSummary
  exact find?_replaceFirst_other _ _ _
    (fun a ha => by
      have : a.userId = uid := by simpa using ha
      constructor <;> simp [this, hne.symm]) l

end Sagenex

namespace Sagenex

theorem summaryAvail_upsertInc_self (l : List WalletSummary) (uid : UserId)
    (da dl : Amount) :
    summaryAvail (upsertInc l uid da dl) uid = summaryAvail l uid + da := by
  unfold summaryAvail
  rw [findSummary_upsertInc_self]
  cases findSummary l uid <;> simp

theorem summaryLifetime_upsertInc_self (l : List WalletSummary) (uid : UserId)
    (da dl : Amount) :
    summaryLifetime (upsertInc l uid da dl) uid = summaryLifetime l uid + dl := by
  unfold summaryLifetime
  rw [findSummary_upsertInc_self]
  cases findSummary l uid <;> simp

-- ---------------------------------------------------------------------------
-- C5: direct bonus recipient and schedule
-- ---------------------------------------------------------------------------

/-- DIRECT ledger entry written by awardDirectBonus. -/
def directBonusEntry (nextId : Nat) (rid : UserId) (u : UserRec)
    (d : DepositForBonus) (pct : ℚ) : LedgerEntry :=
  { id := nextId
    userId := rid
    type := LedgerEntryType.DIRECT
    amount := d.amountUSDT * pct
    status := LedgerEntryStatus.POSTED
    createdBy := "SYSTEM_DEPOSIT_VERIFICATION"
    metaDepositId := some d.id
    metaBonusPct := some pct
    metaSourceUserId := some u.userId }

/-- Recipient and schedule actually implemented by awardDirectBonus, as a
function of the offline-only count it reads: the original sponsor at the
fixed first-deposit percentage when the depositor has no prior VERIFIED
offline deposit, the current placement parent at getReinvestmentBonusPct n
when there are n prior VERIFIED offline deposits (n at least 1), nothing
when the recipient is absent or resolves to the company root; the
reinvestment schedule is strictly decreasing over deposits 1..5 with a flat
floor from deposit 6 on.  Note the count ignores crypto deposits entirely,
which is the divergence exhibited for the claim below. -/
theorem awardDirectBonus_offline_count_schedule
    (s : State) (u : UserRec) (d : DepositForBonus) :
    (∀ rid, priorVerifiedOfflineDeposits s.offlineDeposits u.userId = 0 →
      u.originalSponsorId = some rid → rid ≠ companySponsorId →
      (awardDirectBonus s u d).ledger = s.ledger ++
        [directBonusEntry s.nextLedgerId rid u d FIRST_DEPOSIT_DIRECT_BONUS_PCT] ∧
      summaryAvail (awardDirectBonus s u d).summaries rid =
        summaryAvail s.summaries rid + d.amountUSDT * FIRST_DEPOSIT_DIRECT_BONUS_PCT ∧
      summaryLifetime (awardDirectBonus s u d).summaries rid =
        summaryLifetime s.summaries rid + d.amountUSDT * FIRST_DEPOSIT_DIRECT_BONUS_PCT) ∧
    (∀ rid n, priorVerifiedOfflineDeposits s.offlineDeposits u.userId = n →
      1 ≤ n → u.parentId = some rid → rid ≠ companySponsorId →
      (awardDirectBonus s u d).ledger = s.ledger ++
        [directBonusEntry s.nextLedgerId rid u d (getReinvestmentBonusPct n)] ∧
      summaryAvail (awardDirectBonus s u d).summaries rid =
        summaryAvail s.summaries rid + d.amountUSDT * getReinvestmentBonusPct n) ∧
    (priorVerifiedOfflineDeposits s.offlineDeposits u.userId = 0 →
      (u.originalSponsorId = none ∨ u.originalSponsorId = some companySponsorId) →
      awardDirectBonus s u d = s) ∧
    (1 ≤ priorVerifiedOfflineDeposits s.offlineDeposits u.userId →
      (u.parentId = none ∨ u.parentId = some companySponsorId) →
      awardDirectBonus s u d = s) ∧
    (FIRST_DEPOSIT_DIRECT_BONUS_PCT = 10/100 ∧
      getReinvestmentBonusPct 1 > getReinvestmentBonusPct 2 ∧
      getReinvestmentBonusPct 2 > getReinvestmentBonusPct 3 ∧
      getReinvestmentBonusPct 3 > getReinvestmentBonusPct 4 ∧
      getReinvestmentBonusPct 4 > getReinvestmentBonusPct 5 ∧
      getReinvestmentBonusPct 5 > getReinvestmentBonusPct 6 ∧
      ∀ m, 6 ≤ m → getReinvestmentBonusPct m = getReinvestmentBonusPct 6) := by
  refine ⟨?_, ?_, ?_, ?_, ?_⟩
  · intro rid h0 hrid hne
    unfold awardDirectBonus
    rw [h0, hrid]
    simp only [if_pos rfl, ite_true]
    rw [if_neg hne]
    refine ⟨rfl, ?_, ?_⟩
    · exact summaryAvail_upsertInc_self _ _ _ _
    · exact summaryLifetime_upsertInc_self _ _ _ _
  · intro rid n hn h1 hrid hne
    unfold awardDirectBonus
    rw [hn, hrid]
    have hn0 : ¬ (n = 0) := by omega
    simp only [hn0, if_false, ite_false]
    rw [if_neg hne]
    exact ⟨rfl, summaryAvail_upsertInc_self _ _ _ _⟩
  · intro h0 hsp
    unfold awardDirectBonus
    rw [h0]
    rcases hsp with h | h <;> rw [h] <;> simp
  · intro h1 hpar
    unfold awardDirectBonus
    have hn0 : ¬ (priorVerifiedOfflineDeposits s.offlineDeposits u.userId = 0) := by omega
    rcases hpar with h | h <;> rw [h] <;> simp [hn0]
  · refine ⟨rfl, ?_, ?_, ?_, ?_, ?_, ?_⟩ <;>
      first
        | (intro m hm
           unfold getReinvestmentBonusPct
           have h1 : ¬ (m = 1) := by omega
           have h2 : ¬ (m = 2) := by omega
           have h3 : ¬ (m = 3) := by omega
           have h4 : ¬ (m = 4) := by omega
           have h5 : ¬ (m = 5) := by omega
           simp [h1, h2, h3, h4, h5])
        | (unfold getReinvestmentBonusPct; norm_num)

end Sagenex

namespace Sagenex

/-- Depositing user with no prior VERIFIED offline deposit. -/
def C5UserFirst : UserRec := mkUser "U4" (some "SP") (some "PA")

/-- Depositing user with one prior VERIFIED offline deposit. -/
def C5UserRe : UserRec := mkUser "U3" (some "SP") (some "PA")

/-- Deposit object for the offline schedule examples. -/
def C5Dep : DepositForBonus := { id := 9, userId := "U4", amountUSDT := 100 }

/-- State for the offline schedule examples: U3 has one VERIFIED offline
deposit, U4 none. -/
def C5State : State :=
  { emptyState with
    offlineDeposits := [{ id := 3, userId := "U3", amountUSDT := 40,
                          status := OfflineDepositStatus.VERIFIED }] }

/-- Offline-history examples of the implemented schedule: a first offline
deposit pays the original sponsor SP, a second pays the parent PA at the
tier-1 reinvestment rate. -/
theorem awardDirectBonus_offline_count_examples :
    (awardDirectBonus C5State C5UserFirst C5Dep).ledger = C5State.ledger ++
      [directBonusEntry C5State.nextLedgerId "SP" C5UserFirst C5Dep
        FIRST_DEPOSIT_DIRECT_BONUS_PCT] ∧
    (awardDirectBonus C5State C5UserRe C5Dep).ledger = C5State.ledger ++
      [directBonusEntry C5State.nextLedgerId "PA" C5UserRe C5Dep
        (getReinvestmentBonusPct 1)] :=
  ⟨((awardDirectBonus_offline_count_schedule C5State C5UserFirst C5Dep).1 "SP"
      (by decide) rfl (by decide)).1,
   ((awardDirectBonus_offline_count_schedule C5State C5UserRe C5Dep).2.1 "PA" 1
      (by decide) (by decide) rfl (by decide)).1⟩

end Sagenex

namespace Sagenex

/-- Member for the C5 failing input: original sponsor SP, placement parent
PA, one prior CONFIRMED crypto deposit and no offline deposit. -/
def C5BugUser : UserRec := mkUser "U2" (some "SP") (some "PA")

/-- State for the C5 failing input: the member's first verified deposit was a
crypto deposit (id 1, CONFIRMED); a second crypto deposit (id 2) is PENDING
and about to be confirmed. -/
def C5BugState : State :=
  { emptyState with
    users := [C5BugUser]
    cryptoDeposits := [{ id := 1, userId := "U2", amountUSDT := 50,
                         status := CryptoDepositStatus.CONFIRMED,
                         nowPaymentsPaymentId := "PAY1" },
                       { id := 2, userId := "U2", amountUSDT := 100,
                         status := CryptoDepositStatus.PENDING,
                         nowPaymentsPaymentId := "PAY2" }] }

/-- C5: the claim fails in the code.  The member U2 has exactly one prior
verified deposit (a CONFIRMED crypto deposit; no offline deposit), so by the
claim the direct bonus of the next deposit must go to the placement parent
PA at getReinvestmentBonusPct 1.  Confirming the second crypto deposit
instead posts the single DIRECT entry to the original sponsor SP at the
fixed first-deposit percentage, because awardDirectBonus counts only
VERIFIED offline deposits even on the crypto path: the recipient differs
from the claimed one and the percentage differs from the claimed
schedule. -/
theorem C5_direct_bonus_crypto_history_pays_sponsor :
    priorVerifiedOfflineDeposits C5BugState.offlineDeposits "U2" +
      priorConfirmedCryptoDeposits C5BugState.cryptoDeposits "U2" = 1 ∧
    C5BugUser.parentId = some "PA" ∧
    C5BugUser.originalSponsorId = some "SP" ∧
    (processCryptoDeposit C5BugState 2 "PAY2").toOption.map
      (fun s1 => (s1.ledger.filter
        (fun e => e.type = LedgerEntryType.DIRECT)).map
        (fun e => (e.userId, e.metaBonusPct))) =
      some [("SP", some FIRST_DEPOSIT_DIRECT_BONUS_PCT)] ∧
    ("SP" : UserId) ≠ "PA" ∧
    FIRST_DEPOSIT_DIRECT_BONUS_PCT ≠ getReinvestmentBonusPct 1 := by
  refine ⟨by decide, by decide, by decide, ?_, by decide, ?_⟩
  · with_unfolding_all decide
  · with_unfolding_all decide

end Sagenex

namespace Sagenex

-- ---------------------------------------------------------------------------
-- C7: unilevel upline and cascade payout
-- ---------------------------------------------------------------------------

theorem getUpline_succ_cases (users : List UserRec) (uid : String) (m : Nat) :
    getUpline users uid (m + 1) = [] ∨
    ∃ cu pid parent, findUser users uid = some cu ∧ cu.parentId = some pid ∧
      pid ≠ companySponsorId ∧ findUser users pid = some parent ∧
      getUpline users uid (m + 1) = parent :: getUpline users parent.userId m := by
  cases hcu : findUser users uid with
  | none => exact Or.inl (by simp [getUpline, hcu])
  | some cu =>
    cases hpid : cu.parentId with
    | none => exact Or.inl (by simp [getUpline, hcu, hpid])
    | some pid =>
      by_cases hc : pid = companySponsorId
      · exact Or.inl (by simp [getUpline, hcu, hpid, hc])
      · cases hfp : findUser users pid with
        | none => exact Or.inl (by simp [getUpline, hcu, hpid, hc, hfp])
        | some parent =>
          exact Or.inr ⟨cu, pid, parent, rfl, hpid, hc, hfp,
            by simp [getUpline, hcu, hpid, hc, hfp]⟩

theorem findUser_userId {users : List UserRec} {uid : String} {w : UserRec}
    (h : findUser users uid = some w) : w.userId = uid := by
  simpa using List.find?_some h

theorem findUser_self {users : List UserRec} {uid : String} {w : UserRec}
    (h : findUser users uid = some w) : findUser users w.userId = some w := by
  rw [findUser_userId h]
  exact h

theorem getUpline_length_le (users : List UserRec) :
    ∀ (n : Nat) (uid : String), (getUpline users uid n).length ≤ n := by
  intro n
  induction n with
  | zero => intro uid; simp [getUpline]
  | succ m ih =>
    intro uid
    rcases getUpline_succ_cases users uid m with h | ⟨cu, pid, parent, _, _, _, _, h⟩
    · simp [h]
    · rw [h, List.length_cons]
      exact Nat.succ_le_succ (ih parent.userId)

theorem getUpline_ne_company (users : List UserRec) :
    ∀ (n : Nat) (uid : String) (x : UserRec), x ∈ getUpline users uid n →
      x.userId ≠ companySponsorId := by
  intro n
  induction n with
  | zero => intro uid x hx; simp [getUpline] at hx
  | succ m ih =>
    intro uid x hx
    rcases getUpline_succ_cases users uid m with h | ⟨cu, pid, parent, hcu, hpid, hc, hfp, h⟩
    · rw [h] at hx; simp at hx
    · rw [h] at hx
      rcases List.mem_cons.mp hx with h1 | h1
      · rw [h1, findUser_userId hfp]; exact hc
      · exact ih parent.userId x h1

theorem getUpline_head (users : List UserRec) :
    ∀ (n : Nat) (uid : String) (v : UserRec),
      (getUpline users uid n).head? = some v →
      ∃ w pid2, findUser users uid = some w ∧ w.parentId = some pid2 ∧
        pid2 ≠ companySponsorId ∧ findUser users pid2 = some v := by
  intro n uid v hv
  cases n with
  | zero => simp [getUpline] at hv
  | succ m =>
    rcases getUpline_succ_cases users uid m with h | ⟨cu, pid, parent, hcu, hpid, hc, hfp, h⟩
    · rw [h] at hv; simp at hv
    · rw [h] at hv
      simp only [List.head?_cons, Option.some.injEq] at hv
      exact ⟨cu, pid, hcu, hpid, hc, hv ▸ hfp⟩

theorem getUpline_chain (users : List UserRec) :
    ∀ (n : Nat) (uid : String) (i : Nat) (u v : UserRec),
      (getUpline users uid n)[i]? = some u →
      (getUpline users uid n)[i + 1]? = some v →
      ∃ pid2, u.parentId = some pid2 ∧ pid2 ≠ companySponsorId ∧
        findUser users pid2 = some v := by
  intro n
  induction n with
  | zero => intro uid i u v hu _; simp [getUpline] at hu
  | succ m ih =>
    intro uid i u v hu hv
    rcases getUpline_succ_cases users uid m with h | ⟨cu, pid, parent, hcu, hpid, hc, hfp, h⟩
    · rw [h] at hu; simp at hu
    · rw [h] at hu hv
      cases i with
      | zero =>
        simp only [List.getElem?_cons_zero, Option.some.injEq] at hu
        simp only [List.getElem?_cons_succ] at hv
        have hhead : (getUpline users parent.userId m).head? = some v := by
          rw [List.head?_eq_getElem?]
          exact hv
        rcases getUpline_head users m parent.userId v hhead with
          ⟨w, pid2, hw, hwp, hpc2, hfv⟩
        rw [findUser_self hfp] at hw
        cases hw
        exact ⟨pid2, hu ▸ hwp, hpc2, hfv⟩
      | succ j =>
        simp only [List.getElem?_cons_succ] at hu hv
        exact ih parent.userId j u v hu hv

end Sagenex

namespace Sagenex

/-- View of a ledger entry retaining owner, type, amount, status and level. -/
def entryView (e : LedgerEntry) :
    UserId × LedgerEntryType × ℚ × LedgerEntryStatus × Option Nat :=
  (e.userId, e.type, e.amount, e.status, e.metaLevel)

/-- The unilevel payout prescribed by the spec for an upline, as entry views:
the ancestor at position i (level i+1) receives depositAmount times the level
percentage, and zero-valued amounts produce no entry. -/
def specUnilevelEntries (d : DepositForBonus) :
    List UserRec → Nat →
      List (UserId × LedgerEntryType × ℚ × LedgerEntryStatus × Option Nat)
  | [], _ => []
  | u :: rest, i =>
    let amt := d.amountUSDT * (UNILEVEL_PCTS.getD i 0)
    if amt ≤ 0 then specUnilevelEntries d rest (i + 1)
    else (u.userId, LedgerEntryType.UNILEVEL, amt, LedgerEntryStatus.POSTED,
      some (i + 1)) :: specUnilevelEntries d rest (i + 1)

theorem awardUnilevelFrom_ledger (du : UserRec) (d : DepositForBonus) :
    ∀ (up : List UserRec) (i : Nat) (s : State),
      ((awardUnilevelFrom du d up i s).ledger).map entryView =
        s.ledger.map entryView ++ specUnilevelEntries d up i := by
  intro up
  induction up with
  | nil => intro i s; simp [awardUnilevelFrom, specUnilevelEntries]
  | cons u rest ih =>
    intro i s
    show ((awardUnilevelFrom du d (u :: rest) i s).ledger).map entryView = _
    unfold awardUnilevelFrom specUnilevelEntries
    dsimp only
    by_cases hz : d.amountUSDT * (UNILEVEL_PCTS.getD i 0) ≤ 0
    · rw [if_pos hz, if_pos hz, ih (i + 1) s]
    · rw [if_neg hz, if_neg hz, ih (i + 1) _]
      simp [postBonus, entryView]

theorem specUnilevelEntries_mem (d : DepositForBonus) :
    ∀ (up : List UserRec) (i : Nat) t, t ∈ specUnilevelEntries d up i →
      (∃ u ∈ up, t.1 = u.userId) ∧ 0 < t.2.2.1 := by
  intro up
  induction up with
  | nil => intro i t ht; simp [specUnilevelEntries] at ht
  | cons u rest ih =>
    intro i t ht
    unfold specUnilevelEntries at ht
    dsimp only at ht
    by_cases hz : d.amountUSDT * (UNILEVEL_PCTS.getD i 0) ≤ 0
    · rw [if_pos hz] at ht
      rcases ih (i + 1) t ht with ⟨⟨w, hw, hid⟩, hpos⟩
      exact ⟨⟨w, List.mem_cons_of_mem u hw, hid⟩, hpos⟩
    · rw [if_neg hz] at ht
      rcases List.mem_cons.mp ht with h1 | h1
      · refine ⟨⟨u, List.mem_cons_self u rest, by rw [h1]⟩, ?_⟩
        rw [h1]
        exact lt_of_not_le hz
      · rcases ih (i + 1) t h1 with ⟨⟨w, hw, hid⟩, hpos⟩
        exact ⟨⟨w, List.mem_cons_of_mem u hw, hid⟩, hpos⟩

theorem getUpline_cons_of (users : List UserRec) (uid : UserId) (m : Nat)
    (cu parent : UserRec) (pid : UserId)
    (hcu : findUser users uid = some cu) (hpid : cu.parentId = some pid)
    (hc : pid ≠ companySponsorId) (hfp : findUser users pid = some parent) :
    getUpline users uid (m + 1) = parent :: getUpline users parent.userId m := by
  simp [getUpline, hcu, hpid, hc, hfp]

/-- C7: the unilevel chain returned by getUplineForUnilevel climbs at most 6
ancestors, never contains the company root, starts at the parent of the
placement parent, and follows parent links that stop at the root; the
cascade written by awardUnilevelBonus appends exactly the spec-side payout
list (owner, UNILEVEL, depositAmount times the level percentage, POSTED,
level), in which every recipient is a chain member distinct from the root and
every amount is positive (zero-valued tiers are skipped); and the 6-entry
percentage schedule is the fixed strictly decreasing one. -/
theorem C7_unilevel_chain_and_cascade
    (users : List UserRec) (pid : Option UserId) (s : State)
    (du : UserRec) (d : DepositForBonus) :
    (getUplineForUnilevel users pid).length ≤ 6 ∧
    (∀ x ∈ getUplineForUnilevel users pid, x.userId ≠ companySponsorId) ∧
    (∀ p u gpid gp, pid = some p → p ≠ companySponsorId →
      findUser users p = some u → u.parentId = some gpid →
      gpid ≠ companySponsorId → findUser users gpid = some gp →
      (getUplineForUnilevel users pid).head? = some gp) ∧
    (∀ i u v, (getUplineForUnilevel users pid)[i]? = some u →
      (getUplineForUnilevel users pid)[i + 1]? = some v →
      ∃ pid2, u.parentId = some pid2 ∧ pid2 ≠ companySponsorId ∧
        findUser users pid2 = some v) ∧
    ((awardUnilevelBonus s (getUplineForUnilevel users pid) du d).ledger.map
        entryView =
      s.ledger.map entryView ++
        specUnilevelEntries d (getUplineForUnilevel users pid) 0) ∧
    (∀ t ∈ specUnilevelEntries d (getUplineForUnilevel users pid) 0,
      t.1 ≠ companySponsorId ∧ 0 < t.2.2.1) ∧
    (UNILEVEL_PCTS = [10/100, 6/100, 5/100, 4/100, 3/100, 2/100] ∧
      UNILEVEL_PCTS.Chain' (fun a b => a > b)) := by
  refine ⟨?_, ?_, ?_, ?_, ?_, ?_, rfl, ?_⟩
  · unfold getUplineForUnilevel
    cases pid with
    | none => simp
    | some p =>
      by_cases hc : p = companySponsorId
      · simp [hc]
      · dsimp only
        rw [if_neg hc]
        exact getUpline_length_le users UNILEVEL_PCTS.length p
  · intro x hx
    unfold getUplineForUnilevel at hx
    cases pid with
    | none => simp at hx
    | some p =>
      by_cases hc : p = companySponsorId
      · dsimp only at hx
        rw [if_pos hc] at hx; simp at hx
      · dsimp only at hx
        rw [if_neg hc] at hx
        exact getUpline_ne_company users UNILEVEL_PCTS.length p x hx
  · intro p u gpid gp hp hpc hfu hupar hgc hfg
    subst hp
    unfold getUplineForUnilevel
    dsimp only
    rw [if_neg hpc]
    show (getUpline users p (5 + 1)).head? = some gp
    rw [getUpline_cons_of users p 5 u gp gpid hfu hupar hgc hfg]
    rfl
  · intro i u v hu hv
    unfold getUplineForUnilevel at hu hv
    cases pid with
    | none => simp at hu
    | some p =>
      by_cases hc : p = companySponsorId
      · dsimp only at hu
        rw [if_pos hc] at hu; simp at hu
      · dsimp only at hu hv
        rw [if_neg hc] at hu hv
        exact getUpline_chain users UNILEVEL_PCTS.length p i u v hu hv
  · exact awardUnilevelFrom_ledger du d (getUplineForUnilevel users pid) 0 s
  · intro t ht
    rcases specUnilevelEntries_mem d (getUplineForUnilevel users pid) 0 t ht with
      ⟨⟨w, hw, hid⟩, hpos⟩
    refine ⟨?_, hpos⟩
    rw [hid]
    intro hx
    unfold getUplineForUnilevel at hw
    cases pid with
    | none => simp at hw
    | some p =>
      by_cases hc : p = companySponsorId
      · dsimp only at hw
        rw [if_pos hc] at hw; simp at hw
      · dsimp only at hw
        rw [if_neg hc] at hw
        exact getUpline_ne_company users UNILEVEL_PCTS.length p w hw hx
  · norm_num [UNILEVEL_PCTS, List.chain'_cons, List.chain'_singleton]

end Sagenex

namespace Sagenex

/-- Users for the C7 witness: chain U3 -> U2 -> U1 -> company. -/
def C7Users : List UserRec :=
  [mkUser "U1" (some companySponsorId) (some companySponsorId),
   mkUser "U2" (some "U1") (some "U1"),
   mkUser "U3" (some "U2") (some "U2")]

/-- Depositing user for the C7 witness. -/
def C7Du : UserRec := mkUser "U3" (some "U2") (some "U2")

/-- Deposit for the C7 witness. -/
def C7Dep : DepositForBonus := { id := 11, userId := "U3", amountUSDT := 200 }

/-- State for the C7 witness. -/
def C7WitState : State := { emptyState with users := C7Users }

/-- C7 witness: the cascade theorem applied to the concrete three-user chain;
the upline of the parent U2 starts at the grandparent U1, and the award
appends exactly the spec-side payout list. -/
theorem C7_unilevel_chain_witness :
    (getUplineForUnilevel C7Users (some "U2")).head? =
      some (mkUser "U1" (some companySponsorId) (some companySponsorId)) ∧
    (awardUnilevelBonus C7WitState (getUplineForUnilevel C7Users (some "U2"))
        C7Du C7Dep).ledger.map entryView =
      C7WitState.ledger.map entryView ++
        specUnilevelEntries C7Dep (getUplineForUnilevel C7Users (some "U2")) 0 :=
  ⟨(C7_unilevel_chain_and_cascade C7Users (some "U2") C7WitState C7Du
      C7Dep).2.2.1 "U2" (mkUser "U2" (some "U1") (some "U1")) "U1"
      (mkUser "U1" (some companySponsorId) (some companySponsorId)) rfl
      (by decide) (by decide) (by decide) (by decide) (by decide),
   (C7_unilevel_chain_and_cascade C7Users (some "U2") C7WitState C7Du
      C7Dep).2.2.2.2.1⟩

end Sagenex

namespace Sagenex

-- ---------------------------------------------------------------------------
-- C8: onboarding under a full sponsor
-- ---------------------------------------------------------------------------

/-- C8: onboarding under a sponsor that already has the full width-cap of 6
direct children fails with ValidationError when no designee is supplied and
with ConflictError when the designee itself has 6 direct children; with a
valid designee (a direct child of the sponsor below the cap) the member is
created with the designee as parent and isSplitSponsor true.  Every failure
is an Except error carrying no state, so no member is created in the failure
cases. -/
theorem C8_full_sponsor_designee_rules
    (s : State) (input : NewUserInput) (newUserId : UserId) (refCode : String)
    (sid : String) (sponsor : UserRec)
    (hname : ¬ input.fullName = "") (hemail : ¬ input.email = "")
    (hfresh : ∀ u ∈ s.users, u.email ≠ input.email)
    (hsid : input.sponsorId = some sid)
    (hsc : sid ≠ companySponsorId)
    (hfind : s.users.find?
      (fun u => u.userId = sid || u.referralCode = sid) = some sponsor)
    (hfull : directWidthCap ≤ countChildren s.users sponsor.userId) :
    (input.placementDesigneeId = none →
      createNewUser s input newUserId refCode =
        Except.error ⟨ErrName.ValidationError,
          "Sponsor is full; a placement designee is required."⟩) ∧
    (∀ dId designee, input.placementDesigneeId = some dId →
      findUser s.users dId = some designee →
      designee.parentId = some sponsor.userId →
      directWidthCap ≤ countChildren s.users designee.userId →
      createNewUser s input newUserId refCode =
        Except.error ⟨ErrName.ConflictError,
          "Selected designee already has 6 directs. Pick a different designee."⟩) ∧
    (∀ dId designee, input.placementDesigneeId = some dId →
      findUser s.users dId = some designee →
      designee.parentId = some sponsor.userId →
      countChildren s.users designee.userId < directWidthCap →
      createNewUser s input newUserId refCode =
        Except.ok
          ({ s with users := s.users ++
              [{ userId := newUserId
                 fullName := input.fullName
                 email := input.email
                 referralCode := refCode
                 originalSponsorId := some sponsor.userId
                 parentId := some designee.userId
                 isSplitSponsor := true
                 packageUSD := 0
                 pvPoints := 0
                 isPackageActive := false
                 kycStatus := KycStatus.NOT_SUBMITTED }] },
           { userId := newUserId
             fullName := input.fullName
             email := input.email
             referralCode := refCode
             originalSponsorId := some sponsor.userId
             parentId := some designee.userId
             isSplitSponsor := true
             packageUSD := 0
             pvPoints := 0
             isPackageActive := false
             kycStatus := KycStatus.NOT_SUBMITTED })) := by
  have hany : s.users.any (fun u => u.email = input.email) = false := by
    rw [List.any_eq_false]
    intro u hu
    simpa using hfresh u hu
  have hcap : ¬ countChildren s.users sponsor.userId < directWidthCap :=
    Nat.not_lt.mpr hfull
  refine ⟨?_, ?_, ?_⟩
  · intro hdes
    unfold createNewUser
    rw [hsid]
    simp only [hname, hemail, hany, Option.getD_some, hsc, hfind, hdes]
    simp only [hcap, if_false, ite_false]
    rfl
  · intro dId designee hdes hfindd hpar hdfull
    have hdcap : ¬ countChildren s.users designee.userId < directWidthCap :=
      Nat.not_lt.mpr hdfull
    unfold createNewUser
    rw [hsid]
    simp only [hname, hemail, hany, Option.getD_some, hsc, hfind, hdes, hfindd]
    simp only [hcap, if_false, ite_false, hpar, Nat.not_lt.mp hdcap]
    simp [Nat.not_lt.mp hdcap]
    rfl
  · intro dId designee hdes hfindd hpar hdlt
    unfold createNewUser
    rw [hsid]
    simp only [hname, hemail, hany, Option.getD_some, hsc, hfind, hdes, hfindd]
    simp [hcap, hpar, Nat.not_le.mpr hdlt]
    rfl

end Sagenex

namespace Sagenex

/-- Users for the C8 witness: sponsor SP with six direct children C1..C6;
C2 itself has six direct children G1..G6; C1 has none. -/
def C8Users : List UserRec :=
  [mkUser "SP" (some companySponsorId) (some companySponsorId),
   mkUser "C1" (some "SP") (some "SP"), mkUser "C2" (some "SP") (some "SP"),
   mkUser "C3" (some "SP") (some "SP"), mkUser "C4" (some "SP") (some "SP"),
   mkUser "C5" (some "SP") (some "SP"), mkUser "C6" (some "SP") (some "SP"),
   mkUser "G1" (some "C2") (some "C2"), mkUser "G2" (some "C2") (some "C2"),
   mkUser "G3" (some "C2") (some "C2"), mkUser "G4" (some "C2") (some "C2"),
   mkUser "G5" (some "C2") (some "C2"), mkUser "G6" (some "C2") (some "C2")]

/-- State for the C8 witness. -/
def C8State : State := { emptyState with users := C8Users }

/-- Onboarding input for the C8 witness, parameterized by the designee. -/
def C8Input (designee : Option UserId) : NewUserInput :=
  { fullName := "New Member"
    email := "new@example"
    sponsorId := some "SP"
    placementDesigneeId := designee }

/-- C8 witness: the designee-rule theorem applied to the concrete full
sponsor SP: no designee fails with ValidationError, the full designee C2
fails with ConflictError, and the designee C1 succeeds with split-sponsor
placement under C1. -/
theorem C8_full_sponsor_designee_witness :
    createNewUser C8State (C8Input none) "U90" "RC90" =
      Except.error ⟨ErrName.ValidationError,
        "Sponsor is full; a placement designee is required."⟩ ∧
    createNewUser C8State (C8Input (some "C2")) "U90" "RC90" =
      Except.error ⟨ErrName.ConflictError,
        "Selected designee already has 6 directs. Pick a different designee."⟩ ∧
    createNewUser C8State (C8Input (some "C1")) "U90" "RC90" =
      Except.ok
        ({ C8State with users := C8State.users ++
            [{ userId := "U90"
               fullName := "New Member"
               email := "new@example"
               referralCode := "RC90"
               originalSponsorId := some "SP"
               parentId := some "C1"
               isSplitSponsor := true
               packageUSD := 0
               pvPoints := 0
               isPackageActive := false
               kycStatus := KycStatus.NOT_SUBMITTED }] },
         { userId := "U90"
           fullName := "New Member"
           email := "new@example"
           referralCode := "RC90"
           originalSponsorId := some "SP"
           parentId := some "C1"
           isSplitSponsor := true
           packageUSD := 0
           pvPoints := 0
           isPackageActive := false
           kycStatus := KycStatus.NOT_SUBMITTED }) :=
  ⟨(C8_full_sponsor_designee_rules C8State (C8Input none) "U90" "RC90" "SP"
      (mkUser "SP" (some companySponsorId) (some companySponsorId))
      (by decide) (by decide) (by decide) rfl (by decide) (by decide)
      (by decide)).1 rfl,
   (C8_full_sponsor_designee_rules C8State (C8Input (some "C2")) "U90" "RC90"
      "SP" (mkUser "SP" (some companySponsorId) (some companySponsorId))
      (by decide) (by decide) (by decide) rfl (by decide) (by decide)
      (by decide)).2.1 "C2" (mkUser "C2" (some "SP") (some "SP")) rfl
      (by decide) (by decide) (by decide),
   (C8_full_sponsor_designee_rules C8State (C8Input (some "C1")) "U90" "RC90"
      "SP" (mkUser "SP" (some companySponsorId) (some companySponsorId))
      (by decide) (by decide) (by decide) rfl (by decide) (by decide)
      (by decide)).2.2 "C1" (mkUser "C1" (some "SP") (some "SP")) rfl
      (by decide) (by decide) (by decide)⟩

end Sagenex

namespace Sagenex

-- ---------------------------------------------------------------------------
-- C2: successful transfer effects and atomicity
-- ---------------------------------------------------------------------------

/-- TRANSFER_OUT ledger row of a successful transfer. -/
def transferOutEntry (nextId : Nat) (senderId recipientId : UserId)
    (amount : Amount) (transactionId : String) : LedgerEntry :=
  { id := nextId
    userId := senderId
    type := LedgerEntryType.TRANSFER_OUT
    amount := -amount
    status := LedgerEntryStatus.POSTED
    createdBy := senderId
    metaTransactionId := some transactionId
    metaCounterpartyId := some recipientId }

/-- TRANSFER_IN ledger row of a successful transfer. -/
def transferInEntry (nextId : Nat) (senderId recipientId : UserId)
    (amount : Amount) (transactionId : String) : LedgerEntry :=
  { id := nextId
    userId := recipientId
    type := LedgerEntryType.TRANSFER_IN
    amount := amount
    status := LedgerEntryStatus.POSTED
    createdBy := senderId
    metaTransactionId := some transactionId
    metaCounterpartyId := some senderId }

/-- The committed post-state of a successful transfer. -/
def transferCommittedState (s : State) (senderId recipientId : UserId)
    (amount : Amount) (transactionId : String) : State :=
  { s with
    users := replaceFirst (fun u => u.userId = senderId)
      (fun u => { u with
        otp := none
        otpExpires := none
        failedOtpAttempts := 0
        otpLockoutExpires := none }) s.users
    summaries := upsertInc (incFirstAvailable s.summaries senderId (-amount))
      recipientId amount amount
    ledger := s.ledger ++
      [transferOutEntry s.nextLedgerId senderId recipientId amount transactionId,
       transferInEntry (s.nextLedgerId + 1) senderId recipientId amount transactionId]
    nextLedgerId := s.nextLedgerId + 2 }

theorem executeTransferSteps_ok (s : State) (senderId recipientId : UserId)
    (amount : Amount) (otp : String) (now : Time) (txId : String)
    (sender recipient : UserRec) (senderWallet : WalletSummary) (texp : Time)
    (hne : senderId ≠ recipientId) (hpos : 0 < amount)
    (hs : findUser s.users senderId = some sender)
    (hr : findUser s.users recipientId = some recipient)
    (hw : findSummary s.summaries senderId = some senderWallet)
    (hlock : lockoutActive sender now = false)
    (hotp : sender.otp = some otp)
    (hexp : sender.otpExpires = some texp)
    (hlive : ¬ now > texp)
    (hbal : ¬ senderWallet.availableToWithdraw < amount) :
    executeTransferSteps s senderId recipientId amount otp now txId none =
      Except.ok (transferCommittedState s senderId recipientId amount txId) := by
  unfold executeTransferSteps
  rw [if_neg hne, if_neg (not_le.mpr hpos), hs, hr, hw]
  dsimp only
  rw [hlock]
  simp only [Bool.false_eq_true, if_false]
  rw [hotp, hexp]
  dsimp only
  rw [if_neg hlive, if_neg (by simp : ¬ otp ≠ otp), if_neg hbal]
  simp only [if_neg (by simp : ¬ (none : Option Nat) = some 1),
    if_neg (by simp : ¬ (none : Option Nat) = some 2),
    if_neg (by simp : ¬ (none : Option Nat) = some 3),
    if_neg (by simp : ¬ (none : Option Nat) = some 4)]
  rfl

end Sagenex

namespace Sagenex

theorem executeTransferSteps_fault (s : State) (senderId recipientId : UserId)
    (amount : Amount) (otp : String) (now : Time) (txId : String)
    (sender recipient : UserRec) (senderWallet : WalletSummary) (texp : Time)
    (hne : senderId ≠ recipientId) (hpos : 0 < amount)
    (hs : findUser s.users senderId = some sender)
    (hr : findUser s.users recipientId = some recipient)
    (hw : findSummary s.summaries senderId = some senderWallet)
    (hlock : lockoutActive sender now = false)
    (hotp : sender.otp = some otp)
    (hexp : sender.otpExpires = some texp)
    (hlive : ¬ now > texp)
    (hbal : ¬ senderWallet.availableToWithdraw < amount)
    (fault : Option Nat) (s1 : State)
    (hok : executeTransferSteps s senderId recipientId amount otp now txId
      fault = Except.ok s1) :
    s1 = transferCommittedState s senderId recipientId amount txId := by
  unfold executeTransferSteps at hok
  rw [if_neg hne, if_neg (not_le.mpr hpos), hs, hr, hw] at hok
  dsimp only at hok
  rw [hlock] at hok
  simp only [Bool.false_eq_true, if_false] at hok
  rw [hotp, hexp] at hok
  dsimp only at hok
  rw [if_neg hlive, if_neg (by simp : ¬ otp ≠ otp), if_neg hbal] at hok
  by_cases h1 : fault = some 1
  · rw [if_pos h1] at hok
    exact absurd hok (fun hh => Except.noConfusion hh)
  · rw [if_neg h1] at hok
    by_cases h2 : fault = some 2
    · rw [if_pos h2] at hok
      exact absurd hok (fun hh => Except.noConfusion hh)
    · rw [if_neg h2] at hok
      by_cases h3 : fault = some 3
      · rw [if_pos h3] at hok
        exact absurd hok (fun hh => Except.noConfusion hh)
      · rw [if_neg h3] at hok
        by_cases h4 : fault = some 4
        · rw [if_pos h4] at hok
          exact absurd hok (fun hh => Except.noConfusion hh)
        · rw [if_neg h4] at hok
          exact (Except.ok.inj hok).symm

/-- C2: a transfer with distinct parties, positive amount, existing sender,
recipient and sender wallet, no active lockout, a stored matching unexpired
OTP and sufficient balance commits exactly the expected state: sender
available balance decreases by the amount, recipient available balance and
lifetime earnings increase by the amount, exactly one TRANSFER_OUT and one
TRANSFER_IN row are appended sharing the transaction id, and the sender OTP
state is cleared; and under a fault injected at any checkpoint inside the
transaction the persisted state is either the untouched pre-state or the
full committed state, never anything partial. -/
theorem C2_transfer_success_and_atomicity (s : State)
    (senderId recipientId : UserId) (amount : Amount) (otp : String)
    (now : Time) (txId : String) (sender recipient : UserRec)
    (senderWallet : WalletSummary) (texp : Time)
    (hne : senderId ≠ recipientId) (hpos : 0 < amount)
    (hs : findUser s.users senderId = some sender)
    (hr : findUser s.users recipientId = some recipient)
    (hw : findSummary s.summaries senderId = some senderWallet)
    (hlock : lockoutActive sender now = false)
    (hotp : sender.otp = some otp)
    (hexp : sender.otpExpires = some texp)
    (hlive : ¬ now > texp)
    (hbal : ¬ senderWallet.availableToWithdraw < amount) :
    executeTransfer s senderId recipientId amount otp now txId none =
      (transferCommittedState s senderId recipientId amount txId,
        Except.ok txId) ∧
    summaryAvail
        (transferCommittedState s senderId recipientId amount txId).summaries
        senderId =
      summaryAvail s.summaries senderId - amount ∧
    summaryAvail
        (transferCommittedState s senderId recipientId amount txId).summaries
        recipientId =
      summaryAvail s.summaries recipientId + amount ∧
    summaryLifetime
        (transferCommittedState s senderId recipientId amount txId).summaries
        recipientId =
      summaryLifetime s.summaries recipientId + amount ∧
    (transferCommittedState s senderId recipientId amount txId).ledger =
      s.ledger ++
        [transferOutEntry s.nextLedgerId senderId recipientId amount txId,
         transferInEntry (s.nextLedgerId + 1) senderId recipientId amount txId] ∧
    findUser
        (transferCommittedState s senderId recipientId amount txId).users
        senderId =
      some { sender with
        otp := none
        otpExpires := none
        failedOtpAttempts := 0
        otpLockoutExpires := none } ∧
    (∀ fault,
      (executeTransfer s senderId recipientId amount otp now txId fault).1 = s ∨
      (executeTransfer s senderId recipientId amount otp now txId fault).1 =
        transferCommittedState s senderId recipientId amount txId) := by
  have hsteps := executeTransferSteps_ok s senderId recipientId amount otp now
    txId sender recipient senderWallet texp hne hpos hs hr hw hlock hotp hexp
    hlive hbal
  refine ⟨?_, ?_, ?_, ?_, rfl, ?_, ?_⟩
  · unfold executeTransfer
    rw [hsteps]
  · show summaryAvail (upsertInc (incFirstAvailable s.summaries senderId
      (-amount)) recipientId amount amount) senderId = _
    unfold summaryAvail
    rw [findSummary_upsertInc_other _ _ _ _ _ hne,
      findSummary_incFirstAvailable_self, hw]
    simp [sub_eq_add_neg]
  · show summaryAvail (upsertInc (incFirstAvailable s.summaries senderId
      (-amount)) recipientId amount amount) recipientId = _
    rw [summaryAvail_upsertInc_self]
    unfold summaryAvail
    rw [findSummary_incFirstAvailable_other _ _ _ _ (Ne.symm hne)]
  · show summaryLifetime (upsertInc (incFirstAvailable s.summaries senderId
      (-amount)) recipientId amount amount) recipientId = _
    rw [summaryLifetime_upsertInc_self]
    unfold summaryLifetime
    rw [findSummary_incFirstAvailable_other _ _ _ _ (Ne.symm hne)]
  · show (replaceFirst (fun u => u.userId = senderId) _ s.users).find?
      (fun u => u.userId = senderId) = _
    rw [find?_replaceFirst_pres _ _ (fun a ha => by simpa using ha) s.users]
    unfold findUser at hs
    rw [hs]
    rfl
  · intro fault
    unfold executeTransfer
    cases hst : executeTransferSteps s senderId recipientId amount otp now txId
        fault with
    | error e => exact Or.inl rfl
    | ok s1 =>
      right
      exact executeTransferSteps_fault s senderId recipientId amount otp now
        txId sender recipient senderWallet texp hne hpos hs hr hw hlock hotp
        hexp hlive hbal fault s1 hst

end Sagenex

namespace Sagenex

/-- Sender for the C2 witness: stored matching OTP, wallet balance 100. -/
def C2Sender : UserRec :=
  { mkUser "U1" (some companySponsorId) (some companySponsorId) with
    otp := some "123456"
    otpExpires := some 1000 }

/-- Concrete state for the C2 witness. -/
def C2State : State :=
  { emptyState with
    users := [C2Sender, mkUser "U2" (some companySponsorId) (some companySponsorId)]
    summaries := [{ userId := "U1", availableToWithdraw := 100, lifetimeEarnings := 100 }] }

/-- C2 witness: the transfer theorem applied to the concrete state; the run
commits the expected state and the sender balance drops by exactly 10. -/
theorem C2_transfer_witness :
    executeTransfer C2State "U1" "U2" 10 "123456" 500 "T-OK" none =
      (transferCommittedState C2State "U1" "U2" 10 "T-OK", Except.ok "T-OK") ∧
    summaryAvail (transferCommittedState C2State "U1" "U2" 10 "T-OK").summaries
        "U1" =
      summaryAvail C2State.summaries "U1" - 10 :=
  ⟨(C2_transfer_success_and_atomicity C2State "U1" "U2" 10 "123456" 500 "T-OK"
      C2Sender (mkUser "U2" (some companySponsorId) (some companySponsorId))
      { userId := "U1", availableToWithdraw := 100, lifetimeEarnings := 100 }
      1000 (by decide) (by norm_num) (by decide) (by decide) (by decide)
      (by decide) rfl rfl (by decide) (by with_unfolding_all decide)).1,
   (C2_transfer_success_and_atomicity C2State "U1" "U2" 10 "123456" 500 "T-OK"
      C2Sender (mkUser "U2" (some companySponsorId) (some companySponsorId))
      { userId := "U1", availableToWithdraw := 100, lifetimeEarnings := 100 }
      1000 (by decide) (by norm_num) (by decide) (by decide) (by decide)
      (by decide) rfl rfl (by decide) (by with_unfolding_all decide)).2.1⟩

end Sagenex

namespace Sagenex

-- ---------------------------------------------------------------------------
-- C1: ledger-balance reconciliation invariant
-- ---------------------------------------------------------------------------

/-- Which ledger types the services pair with a Balance Summary update:
deposits in transit (OFFLINE_DEPOSIT) and the principal record
(PACKAGE_ACTIVATION) never touch the spendable balance; every other type
does. -/
def affectsBalance : LedgerEntryType → Bool
  | LedgerEntryType.OFFLINE_DEPOSIT => false
  | LedgerEntryType.PACKAGE_ACTIVATION => false
  | _ => true

/-- An entry counted by the spec sum: balance-affecting type with status
POSTED, PAID or VERIFIED. -/
def countsAffected (e : LedgerEntry) : Bool :=
  affectsBalance e.type &&
    (e.status = LedgerEntryStatus.POSTED || e.status = LedgerEntryStatus.PAID ||
      e.status = LedgerEntryStatus.VERIFIED)

/-- A withdrawal request that is still pending (already debited from the
balance but not yet in the spec sum). -/
def isPendingWithdrawal (e : LedgerEntry) : Bool :=
  e.type = LedgerEntryType.WITHDRAWAL_REQUEST &&
    e.status = LedgerEntryStatus.PENDING

/-- Contribution of one entry to the counted sum of user u. -/
def entryAff (u : UserId) (e : LedgerEntry) : ℚ :=
  if e.userId = u && countsAffected e then e.amount else 0

/-- Contribution of one entry to the pending-withdrawal sum of user u. -/
def entryPend (u : UserId) (e : LedgerEntry) : ℚ :=
  if e.userId = u && isPendingWithdrawal e then e.amount else 0

/-- Signed sum of the counted entries of user u. -/
def affSum (led : List LedgerEntry) (u : UserId) : ℚ :=
  (led.map (entryAff u)).sum

/-- Signed sum of the PENDING withdrawal-request entries of user u. -/
def pendWSum (led : List LedgerEntry) (u : UserId) : ℚ :=
  (led.map (entryPend u)).sum

/-- Counted sum plus pending-withdrawal sum. -/
def combined (led : List LedgerEntry) (u : UserId) : ℚ :=
  affSum led u + pendWSum led u

/-- User u has a PENDING withdrawal-request entry. -/
def hasPendW (led : List LedgerEntry) (u : UserId) : Prop :=
  ∃ e ∈ led, e.userId = u ∧ isPendingWithdrawal e = true

instance (led : List LedgerEntry) (u : UserId) : Decidable (hasPendW led u) :=
  List.decidableBEx _ led

/-- Per-user reconciliation: a summary row carries exactly the combined sum,
and a missing row forces a zero combined sum. -/
def availOk (summaries : List WalletSummary) (led : List LedgerEntry)
    (u : UserId) : Prop :=
  match findSummary summaries u with
  | some r => r.availableToWithdraw = combined led u
  | none => combined led u = 0

instance (summaries : List WalletSummary) (led : List LedgerEntry)
    (u : UserId) : Decidable (availOk summaries led u) := by
  unfold availOk
  cases findSummary summaries u <;> exact inferInstanceAs (Decidable _)

/-- A member with a pending withdrawal has a summary row. -/
def pendRowOk (summaries : List WalletSummary) (led : List LedgerEntry)
    (u : UserId) : Prop :=
  hasPendW led u → (findSummary summaries u).isSome = true

/-- Full inductive invariant of the ledger and balance subsystem: user ids
are unique (the mongo unique index) and every directory member reconciles. -/
def InvOn (users : List UserRec) (summaries : List WalletSummary)
    (led : List LedgerEntry) : Prop :=
  (users.map (fun u => u.userId)).Nodup ∧
    ∀ u ∈ users, availOk summaries led u.userId ∧ pendRowOk summaries led u.userId

/-- The invariant on a database state. -/
def Inv (s : State) : Prop := InvOn s.users s.summaries s.ledger

/-- The claim exactly as the spec words it: for every member with a Balance
Summary row, the available balance equals the signed sum of that member's
POSTED, PAID or VERIFIED balance-affecting ledger entries. -/
def ClaimedInvariant (s : State) : Prop :=
  ∀ u ∈ s.users, ∀ r, findSummary s.summaries u.userId = some r →
    r.availableToWithdraw = affSum s.ledger u.userId

/-- The amended claim: the sum must also include the still-PENDING
withdrawal-request entries, which are debited at request time. -/
def AmendedInvariant (s : State) : Prop :=
  ∀ u ∈ s.users, ∀ r, findSummary s.summaries u.userId = some r →
    r.availableToWithdraw = affSum s.ledger u.userId + pendWSum s.ledger u.userId

end Sagenex

namespace Sagenex

/-- Member for the C1 counterexample (KYC verified so withdrawal is open). -/
def C1User : UserRec :=
  { mkUser "U1" (some companySponsorId) (some companySponsorId) with
    kycStatus := KycStatus.VERIFIED }

/-- Balance row of the C1 counterexample before the withdrawal request. -/
def C1Row100 : WalletSummary :=
  { userId := "U1", availableToWithdraw := 100, lifetimeEarnings := 100 }

/-- Balance row of the C1 counterexample after the withdrawal request. -/
def C1Row60 : WalletSummary :=
  { userId := "U1", availableToWithdraw := 60, lifetimeEarnings := 100 }

/-- State for the C1 counterexample: one member with a 100 balance backed by
one POSTED DIRECT ledger entry of 100. -/
def C1State : State :=
  { emptyState with
    users := [C1User]
    summaries := [C1Row100]
    ledger := [{ id := 0, userId := "U1", type := LedgerEntryType.DIRECT,
                 amount := 100, status := LedgerEntryStatus.POSTED,
                 createdBy := "SYSTEM_DEPOSIT_VERIFICATION" }]
    nextLedgerId := 1 }

/-- State after the completed withdrawal request of 40. -/
def C1After : State :=
  match createWithdrawalRequest C1State "U1" 40 "ADDR" with
  | Except.ok s1 => s1
  | Except.error _ => C1State

/-- C1 counterexample: the spec invariant holds before a withdrawal request
and fails immediately after the completed request: the balance drops to 60
while the sum over POSTED, PAID and VERIFIED balance-affecting entries stays
100, because the new WITHDRAWAL_REQUEST entry is still PENDING. -/
theorem C1_counterexample :
    ClaimedInvariant C1State ∧
    (createWithdrawalRequest C1State "U1" 40 "ADDR").toOption = some C1After ∧
    ¬ ClaimedInvariant C1After := by
  refine ⟨?_, by with_unfolding_all decide, ?_⟩
  · intro u hu r hr
    have hu1 : u = C1User := by
      simpa [C1State] using hu
    subst hu1
    have hfind : findSummary C1State.summaries C1User.userId = some C1Row100 := by
      decide
    rw [hfind] at hr
    have hr1 : r = C1Row100 := (Option.some.inj hr).symm
    subst hr1
    with_unfolding_all decide
  · intro h
    have h2 := h C1User (by with_unfolding_all decide) C1Row60
      (by with_unfolding_all decide)
    have h3 : ¬ (C1Row60.availableToWithdraw =
        affSum C1After.ledger C1User.userId) := by
      with_unfolding_all decide
    exact h3 h2

end Sagenex

namespace Sagenex

-- Sum lemmas over the ledger primitives

theorem affSum_append (led : List LedgerEntry) (e : LedgerEntry) (u : UserId) :
    affSum (led ++ [e]) u = affSum led u + entryAff u e := by
  simp [affSum]

theorem pendWSum_append (led : List LedgerEntry) (e : LedgerEntry) (u : UserId) :
    pendWSum (led ++ [e]) u = pendWSum led u + entryPend u e := by
  simp [pendWSum]

theorem combined_append (led : List LedgerEntry) (e : LedgerEntry) (u : UserId) :
    combined (led ++ [e]) u = combined led u + (entryAff u e + entryPend u e) := by
  unfold combined
  rw [affSum_append, pendWSum_append]
  ring

theorem sum_map_replaceFirst {α : Type} (p : α → Bool) (f : α → α)
    (g : α → ℚ) (l : List α) (w : α) (hw : l.find? p = some w) :
    ((replaceFirst p f l).map g).sum = (l.map g).sum + (g (f w) - g w) := by
  induction l with
  | nil => simp at hw
  | cons x xs ih =>
    rw [List.find?_cons] at hw
    cases hp : p x with
    | true =>
      rw [hp] at hw
      have hx : x = w := by simpa using hw
      subst hx
      simp only [replaceFirst, hp, if_true, List.map_cons, List.sum_cons]
      ring
    | false =>
      rw [hp] at hw
      simp only [replaceFirst, hp, Bool.false_eq_true, if_false, List.map_cons,
        List.sum_cons, ih hw]
      ring

theorem affSum_replaceFirst (p : LedgerEntry → Bool) (f : LedgerEntry → LedgerEntry)
    (led : List LedgerEntry) (w : LedgerEntry) (u : UserId)
    (hw : led.find? p = some w) :
    affSum (replaceFirst p f led) u =
      affSum led u + (entryAff u (f w) - entryAff u w) :=
  sum_map_replaceFirst p f (entryAff u) led w hw

theorem pendWSum_replaceFirst (p : LedgerEntry → Bool)
    (f : LedgerEntry → LedgerEntry) (led : List LedgerEntry) (w : LedgerEntry)
    (u : UserId) (hw : led.find? p = some w) :
    pendWSum (replaceFirst p f led) u =
      pendWSum led u + (entryPend u (f w) - entryPend u w) :=
  sum_map_replaceFirst p f (entryPend u) led w hw

theorem sum_map_replaceFirst_congr {α : Type} (p : α → Bool) (f : α → α)
    (g : α → ℚ) (l : List α) (hg : ∀ a, p a = true → g (f a) = g a) :
    ((replaceFirst p f l).map g).sum = (l.map g).sum := by
  induction l with
  | nil => rfl
  | cons x xs ih =>
    cases hp : p x with
    | true =>
      simp only [replaceFirst, hp, if_true, List.map_cons, List.sum_cons,
        hg x hp]
    | false =>
      simp only [replaceFirst, hp, Bool.false_eq_true, if_false, List.map_cons,
        List.sum_cons, ih]

theorem hasPendW_append_iff (led : List LedgerEntry) (e : LedgerEntry)
    (u : UserId) (he : isPendingWithdrawal e = false) :
    hasPendW (led ++ [e]) u ↔ hasPendW led u := by
  unfold hasPendW
  constructor
  · rintro ⟨x, hx, hxu, hxp⟩
    rcases List.mem_append.mp hx with h1 | h1
    · exact ⟨x, h1, hxu, hxp⟩
    · have : x = e := by simpa using h1
      rw [this, he] at hxp
      exact absurd hxp (by simp)
  · rintro ⟨x, hx, hxu, hxp⟩
    exact ⟨x, List.mem_append_left _ hx, hxu, hxp⟩

theorem hasPendW_append_left (led : List LedgerEntry) (e : LedgerEntry)
    (u : UserId) (h : hasPendW led u) : hasPendW (led ++ [e]) u := by
  rcases h with ⟨x, hx, hxu, hxp⟩
  exact ⟨x, List.mem_append_left _ hx, hxu, hxp⟩

theorem hasPendW_replaceFirst (p : LedgerEntry → Bool)
    (f : LedgerEntry → LedgerEntry) (led : List LedgerEntry) (u : UserId)
    (hf : ∀ a, p a = true → isPendingWithdrawal (f a) = false)
    (h : hasPendW (replaceFirst p f led) u) : hasPendW led u := by
  rcases h with ⟨x, hx, hxu, hxp⟩
  rcases mem_replaceFirst hx with h1 | ⟨b, hb, hpb, hxb⟩
  · exact ⟨x, h1, hxu, hxp⟩
  · rw [hxb, hf b hpb] at hxp
    exact absurd hxp (by simp)

end Sagenex

namespace Sagenex

theorem availOk_congr {sums sums2 : List WalletSummary}
    {led led2 : List LedgerEntry} {u : UserId}
    (hrow : findSummary sums2 u = findSummary sums u)
    (hcomb : combined led2 u = combined led u)
    (h : availOk sums led u) : availOk sums2 led2 u := by
  unfold availOk at h ⊢
  rw [hrow, hcomb]
  exact h

theorem pendRowOk_mono {sums sums2 : List WalletSummary}
    {led led2 : List LedgerEntry} {u : UserId}
    (hrow : (findSummary sums u).isSome = true →
      (findSummary sums2 u).isSome = true)
    (hpend : hasPendW led2 u → hasPendW led u)
    (h : pendRowOk sums led u) : pendRowOk sums2 led2 u :=
  fun hp => hrow (h (hpend hp))

theorem isSome_findSummary_upsertInc (l : List WalletSummary) (uid v : UserId)
    (da dl : Amount) (h : (findSummary l v).isSome = true) :
    (findSummary (upsertInc l uid da dl) v).isSome = true := by
  by_cases hv : v = uid
  · subst hv
    rw [findSummary_upsertInc_self]
    rfl
  · rw [findSummary_upsertInc_other _ _ _ _ _ hv]
    exact h

theorem isSome_findSummary_upsertTouch (l : List WalletSummary) (uid v : UserId)
    (h : (findSummary l v).isSome = true) :
    (findSummary (upsertTouch l uid) v).isSome = true := by
  by_cases hv : v = uid
  · subst hv
    rw [findSummary_upsertTouch_self]
    rfl
  · rw [findSummary_upsertTouch_other _ _ _ hv]
    exact h

theorem isSome_findSummary_incFirstAvailable (l : List WalletSummary)
    (uid v : UserId) (da : Amount) (h : (findSummary l v).isSome = true) :
    (findSummary (incFirstAvailable l uid da) v).isSome = true := by
  by_cases hv : v = uid
  · rw [hv, findSummary_incFirstAvailable_self]
    rw [hv] at h
    cases hf : findSummary l uid with
    | none => rw [hf] at h; exact absurd h (by simp)
    | some r => rfl
  · rw [findSummary_incFirstAvailable_other _ _ _ _ hv]
    exact h

/-- Posting one counted (POSTED earning or transfer) entry together with the
matching upsert increment of the owner summary preserves the invariant. -/
theorem InvOn_postEarning (users : List UserRec) (sums : List WalletSummary)
    (led : List LedgerEntry) (e : LedgerEntry) (o : UserId) (dl : Amount)
    (hInv : InvOn users sums led) (ho : e.userId = o)
    (hc : countsAffected e = true) (hp : isPendingWithdrawal e = false) :
    InvOn users (upsertInc sums o e.amount dl) (led ++ [e]) := by
  obtain ⟨hnd, hall⟩ := hInv
  refine ⟨hnd, ?_⟩
  intro u hu
  obtain ⟨hav, hpr⟩ := hall u hu
  constructor
  · by_cases huo : u.userId = o
    · have hca : entryAff u.userId e = e.amount := by
        unfold entryAff
        rw [ho, huo]
        simp [hc]
      have hcp : entryPend u.userId e = 0 := by
        unfold entryPend
        simp [hp]
      unfold availOk at hav ⊢
      rw [huo, findSummary_upsertInc_self]
      rw [huo] at hav
      cases hfs : findSummary sums o with
      | some r =>
        rw [hfs] at hav
        simp only [hfs]
        rw [combined_append, ← huo, hca, hcp, huo]
        rw [hav]
        ring
      | none =>
        rw [hfs] at hav
        simp only [hfs]
        rw [combined_append, ← huo, hca, hcp, huo, hav]
        ring
    · have hca : entryAff u.userId e = 0 := by
        unfold entryAff
        rw [ho]
        simp [Ne.symm huo]
      have hcp : entryPend u.userId e = 0 := by
        unfold entryPend
        simp [hp]
      refine availOk_congr (findSummary_upsertInc_other _ _ _ _ _ huo) ?_ hav
      rw [combined_append, hca, hcp]
      ring
  · refine pendRowOk_mono (isSome_findSummary_upsertInc _ _ _ _ _) ?_ hpr
    intro hq
    exact (hasPendW_append_iff _ _ _ hp).mp hq

end Sagenex

namespace Sagenex

theorem hasPendW_append_other (led : List LedgerEntry) (e : LedgerEntry)
    (u : UserId) (he : e.userId ≠ u) (h : hasPendW (led ++ [e]) u) :
    hasPendW led u := by
  rcases h with ⟨x, hx, hxu, hxp⟩
  rcases List.mem_append.mp hx with h1 | h1
  · exact ⟨x, h1, hxu, hxp⟩
  · have : x = e := by simpa using h1
    rw [this] at hxu
    exact absurd hxu he

theorem hasPendW_replaceFirst_rev (p : LedgerEntry → Bool)
    (f : LedgerEntry → LedgerEntry) (led : List LedgerEntry) (u : UserId)
    (hf : ∀ a, p a = true →
      (f a).userId = a.userId ∧ isPendingWithdrawal (f a) = isPendingWithdrawal a)
    (h : hasPendW (replaceFirst p f led) u) : hasPendW led u := by
  rcases h with ⟨x, hx, hxu, hxp⟩
  rcases mem_replaceFirst hx with h1 | ⟨b, hb, hpb, hxb⟩
  · exact ⟨x, h1, hxu, hxp⟩
  · obtain ⟨hid, hpd⟩ := hf b hpb
    refine ⟨b, hb, ?_, ?_⟩
    · rw [← hid, ← hxb]; exact hxu
    · rw [← hpd, ← hxb]; exact hxp

/-- Appending a ledger entry that is neither counted nor a pending
withdrawal preserves the invariant. -/
theorem InvOn_appendNeutral (users : List UserRec) (sums : List WalletSummary)
    (led : List LedgerEntry) (e : LedgerEntry)
    (hInv : InvOn users sums led) (hc : countsAffected e = false)
    (hp : isPendingWithdrawal e = false) :
    InvOn users sums (led ++ [e]) := by
  obtain ⟨hnd, hall⟩ := hInv
  refine ⟨hnd, ?_⟩
  intro u hu
  obtain ⟨hav, hpr⟩ := hall u hu
  have hca : entryAff u.userId e = 0 := by
    unfold entryAff; simp [hc]
  have hcp : entryPend u.userId e = 0 := by
    unfold entryPend; simp [hp]
  constructor
  · refine availOk_congr rfl ?_ hav
    rw [combined_append, hca, hcp]
    ring
  · exact pendRowOk_mono (fun h => h) ((hasPendW_append_iff _ _ _ hp).mp) hpr

/-- Rewriting ledger entries without changing owner, amount, counted status
or pending-withdrawal status preserves the invariant. -/
theorem InvOn_ledgerReplaceNeutral (users : List UserRec)
    (sums : List WalletSummary) (led : List LedgerEntry)
    (p : LedgerEntry → Bool) (f : LedgerEntry → LedgerEntry)
    (hInv : InvOn users sums led)
    (hf : ∀ a, p a = true → (f a).userId = a.userId ∧ (f a).amount = a.amount ∧
      countsAffected (f a) = countsAffected a ∧
      isPendingWithdrawal (f a) = isPendingWithdrawal a) :
    InvOn users sums (replaceFirst p f led) := by
  obtain ⟨hnd, hall⟩ := hInv
  refine ⟨hnd, ?_⟩
  intro u hu
  obtain ⟨hav, hpr⟩ := hall u hu
  have haff : ∀ v, affSum (replaceFirst p f led) v = affSum led v := by
    intro v
    refine sum_map_replaceFirst_congr p f (entryAff v) led ?_
    intro a ha
    obtain ⟨h1, h2, h3, h4⟩ := hf a ha
    unfold entryAff
    rw [h1, h2, h3]
  have hpend : ∀ v, pendWSum (replaceFirst p f led) v = pendWSum led v := by
    intro v
    refine sum_map_replaceFirst_congr p f (entryPend v) led ?_
    intro a ha
    obtain ⟨h1, h2, h3, h4⟩ := hf a ha
    unfold entryPend
    rw [h1, h2, h4]
  constructor
  · refine availOk_congr rfl ?_ hav
    unfold combined
    rw [haff, hpend]
  · refine pendRowOk_mono (fun h => h) ?_ hpr
    exact hasPendW_replaceFirst_rev p f led u.userId
      (fun a ha => ⟨(hf a ha).1, (hf a ha).2.2.2⟩)

/-- Rewriting user documents without changing their ids preserves the
invariant. -/
theorem InvOn_usersReplace (users : List UserRec) (sums : List WalletSummary)
    (led : List LedgerEntry) (p : UserRec → Bool) (f : UserRec → UserRec)
    (hInv : InvOn users sums led) (hf : ∀ a, (f a).userId = a.userId) :
    InvOn (replaceFirst p f users) sums led := by
  obtain ⟨hnd, hall⟩ := hInv
  constructor
  · rw [map_replaceFirst_eq p f _ hf users]
    exact hnd
  · intro u hu
    rcases mem_replaceFirst hu with h1 | ⟨b, hb, hpb, hub⟩
    · exact hall u h1
    · rw [hub, hf b]
      exact hall b hb

/-- Creating a missing summary row with zero balances preserves the
invariant. -/
theorem InvOn_upsertTouch (users : List UserRec) (sums : List WalletSummary)
    (led : List LedgerEntry) (uid : UserId) (hInv : InvOn users sums led) :
    InvOn users (upsertTouch sums uid) led := by
  obtain ⟨hnd, hall⟩ := hInv
  refine ⟨hnd, ?_⟩
  intro u hu
  obtain ⟨hav, hpr⟩ := hall u hu
  constructor
  · by_cases huo : u.userId = uid
    · unfold availOk at hav ⊢
      rw [huo, findSummary_upsertTouch_self]
      rw [huo] at hav
      cases hfs : findSummary sums uid with
      | some r => rw [hfs] at hav; simpa [hfs] using hav
      | none => rw [hfs] at hav; simpa [hfs] using hav.symm
    · exact availOk_congr (findSummary_upsertTouch_other _ _ _ huo) rfl hav
  · exact pendRowOk_mono (isSome_findSummary_upsertTouch _ _ _) (fun h => h) hpr

/-- Appending a counted entry for an owner with an existing summary row and
applying the matching first-row increment preserves the invariant. -/
theorem InvOn_debitEntry (users : List UserRec) (sums : List WalletSummary)
    (led : List LedgerEntry) (e : LedgerEntry) (o : UserId)
    (w : WalletSummary) (hInv : InvOn users sums led) (ho : e.userId = o)
    (hw : findSummary sums o = some w) (hc : countsAffected e = true)
    (hp : isPendingWithdrawal e = false) :
    InvOn users (incFirstAvailable sums o e.amount) (led ++ [e]) := by
  obtain ⟨hnd, hall⟩ := hInv
  refine ⟨hnd, ?_⟩
  intro u hu
  obtain ⟨hav, hpr⟩ := hall u hu
  constructor
  · by_cases huo : u.userId = o
    · have hca : entryAff u.userId e = e.amount := by
        unfold entryAff
        rw [ho, huo]
        simp [hc]
      have hcp : entryPend u.userId e = 0 := by
        unfold entryPend
        simp [hp]
      unfold availOk at hav ⊢
      rw [huo, findSummary_incFirstAvailable_self, hw]
      rw [huo, hw] at hav
      simp only [Option.map_some']
      rw [combined_append, ← huo, hca, hcp, huo, hav]
      ring
    · have hca : entryAff u.userId e = 0 := by
        unfold entryAff
        rw [ho]
        simp [Ne.symm huo]
      have hcp : entryPend u.userId e = 0 := by
        unfold entryPend
        simp [hp]
      refine availOk_congr (findSummary_incFirstAvailable_other _ _ _ _ huo) ?_ hav
      rw [combined_append, hca, hcp]
      ring
  · refine pendRowOk_mono (isSome_findSummary_incFirstAvailable _ _ _ _) ?_ hpr
    exact (hasPendW_append_iff _ _ _ hp).mp

end Sagenex

namespace Sagenex

/-- A pending withdrawal: append the PENDING negative entry and debit the
(existing) owner row; preserves the invariant. -/
theorem InvOn_withdrawalRequest (users : List UserRec)
    (sums : List WalletSummary) (led : List LedgerEntry) (e : LedgerEntry)
    (o : UserId) (w : WalletSummary) (hInv : InvOn users sums led)
    (ho : e.userId = o) (hw : findSummary sums o = some w)
    (hc : countsAffected e = false) (hp : isPendingWithdrawal e = true) :
    InvOn users (incFirstAvailable sums o e.amount) (led ++ [e]) := by
  obtain ⟨hnd, hall⟩ := hInv
  refine ⟨hnd, ?_⟩
  intro u hu
  obtain ⟨hav, hpr⟩ := hall u hu
  constructor
  · by_cases huo : u.userId = o
    · have hca : entryAff u.userId e = 0 := by
        unfold entryAff
        simp [hc]
      have hcp : entryPend u.userId e = e.amount := by
        unfold entryPend
        rw [ho, huo]
        simp [hp]
      unfold availOk at hav ⊢
      rw [huo, findSummary_incFirstAvailable_self, hw]
      rw [huo, hw] at hav
      simp only [Option.map_some']
      rw [combined_append, ← huo, hca, hcp, huo, hav]
      ring
    · have hca : entryAff u.userId e = 0 := by
        unfold entryAff
        simp [hc]
      have hcp : entryPend u.userId e = 0 := by
        unfold entryPend
        rw [ho]
        simp [Ne.symm huo]
      refine availOk_congr (findSummary_incFirstAvailable_other _ _ _ _ huo) ?_ hav
      rw [combined_append, hca, hcp]
      ring
  · intro hq
    by_cases huo : u.userId = o
    · rw [huo, findSummary_incFirstAvailable_self, hw]
      rfl
    · refine isSome_findSummary_incFirstAvailable _ _ _ _ ?_
      refine hpr ?_
      refine hasPendW_append_other led e u.userId ?_ hq
      rw [ho]
      exact fun hh => huo hh.symm

/-- Approving a withdrawal (PENDING to PAID status flip on the found
WITHDRAWAL_REQUEST entry, no summary change) preserves the invariant: the
entry amount moves from the pending sum to the counted sum. -/
theorem InvOn_approve (users : List UserRec) (sums : List WalletSummary)
    (led : List LedgerEntry) (p : LedgerEntry → Bool)
    (f : LedgerEntry → LedgerEntry) (w : LedgerEntry)
    (hInv : InvOn users sums led) (hw : led.find? p = some w)
    (hf : ∀ a, (f a).userId = a.userId ∧ (f a).amount = a.amount ∧
      isPendingWithdrawal (f a) = false)
    (hcw : countsAffected w = false) (hpw : isPendingWithdrawal w = true)
    (hcfw : countsAffected (f w) = true) :
    InvOn users sums (replaceFirst p f led) := by
  obtain ⟨hnd, hall⟩ := hInv
  refine ⟨hnd, ?_⟩
  intro u hu
  obtain ⟨hav, hpr⟩ := hall u hu
  have hcomb : combined (replaceFirst p f led) u.userId = combined led u.userId := by
    unfold combined
    rw [affSum_replaceFirst p f led w u.userId hw,
      pendWSum_replaceFirst p f led w u.userId hw]
    by_cases huo : u.userId = w.userId
    · have h1 : entryAff u.userId (f w) = w.amount := by
        unfold entryAff
        rw [(hf w).1, (hf w).2.1, huo]
        simp [hcfw]
      have h2 : entryAff u.userId w = 0 := by
        unfold entryAff
        simp [hcw]
      have h3 : entryPend u.userId (f w) = 0 := by
        unfold entryPend
        simp [(hf w).2.2]
      have h4 : entryPend u.userId w = w.amount := by
        unfold entryPend
        rw [huo]
        simp [hpw]
      rw [h1, h2, h3, h4]
      ring
    · have h1 : entryAff u.userId (f w) = 0 := by
        unfold entryAff
        rw [(hf w).1]
        simp [Ne.symm huo]
      have h2 : entryAff u.userId w = 0 := by
        unfold entryAff
        simp [hcw]
      have h3 : entryPend u.userId (f w) = 0 := by
        unfold entryPend
        simp [(hf w).2.2]
      have h4 : entryPend u.userId w = 0 := by
        unfold entryPend
        simp [Ne.symm huo]
      rw [h1, h2, h3, h4]
      ring
  constructor
  · exact availOk_congr rfl hcomb hav
  · refine pendRowOk_mono (fun h => h) ?_ hpr
    exact hasPendW_replaceFirst p f led u.userId (fun a _ => (hf a).2.2)

end Sagenex

namespace Sagenex

/-- Rejecting a withdrawal (PENDING to REJECTED on the found entry, plus the
refunding first-row increment by the negated entry amount) preserves the
invariant; a directory member owning a pending withdrawal always has a row,
so the refund never misses. -/
theorem InvOn_reject (users : List UserRec) (sums : List WalletSummary)
    (led : List LedgerEntry) (p : LedgerEntry → Bool)
    (f : LedgerEntry → LedgerEntry) (w : LedgerEntry)
    (hInv : InvOn users sums led) (hw : led.find? p = some w)
    (hf : ∀ a, (f a).userId = a.userId ∧ (f a).amount = a.amount ∧
      isPendingWithdrawal (f a) = false)
    (hcw : countsAffected w = false) (hpw : isPendingWithdrawal w = true)
    (hcfw : countsAffected (f w) = false) :
    InvOn users (incFirstAvailable sums w.userId (-w.amount))
      (replaceFirst p f led) := by
  obtain ⟨hnd, hall⟩ := hInv
  refine ⟨hnd, ?_⟩
  intro u hu
  obtain ⟨hav, hpr⟩ := hall u hu
  have hwmem : w ∈ led := List.mem_of_find?_eq_some hw
  constructor
  · by_cases huo : u.userId = w.userId
    · have hrow : (findSummary sums u.userId).isSome = true := by
        refine hpr ⟨w, hwmem, huo.symm, hpw⟩
      cases hfs : findSummary sums u.userId with
      | none => rw [hfs] at hrow; exact absurd hrow (by simp)
      | some r =>
        unfold availOk at hav ⊢
        rw [hfs] at hav
        rw [← huo, findSummary_incFirstAvailable_self, hfs]
        simp only [Option.map_some']
        unfold combined at hav ⊢
        rw [affSum_replaceFirst p f led w u.userId hw,
          pendWSum_replaceFirst p f led w u.userId hw]
        have h1 : entryAff u.userId (f w) = 0 := by
          unfold entryAff
          simp [hcfw]
        have h2 : entryAff u.userId w = 0 := by
          unfold entryAff
          simp [hcw]
        have h3 : entryPend u.userId (f w) = 0 := by
          unfold entryPend
          simp [(hf w).2.2]
        have h4 : entryPend u.userId w = w.amount := by
          unfold entryPend
          simp [huo.symm, hpw]
        rw [h1, h2, h3, h4, hav]
        ring
    · have hrow : findSummary (incFirstAvailable sums w.userId (-w.amount))
          u.userId = findSummary sums u.userId :=
        findSummary_incFirstAvailable_other _ _ _ _ huo
      refine availOk_congr hrow ?_ hav
      unfold combined
      rw [affSum_replaceFirst p f led w u.userId hw,
        pendWSum_replaceFirst p f led w u.userId hw]
      have h1 : entryAff u.userId (f w) = 0 := by
        unfold entryAff
        simp [hcfw]
      have h2 : entryAff u.userId w = 0 := by
        unfold entryAff
        simp [hcw]
      have h3 : entryPend u.userId (f w) = 0 := by
        unfold entryPend
        simp [(hf w).2.2]
      have h4 : entryPend u.userId w = 0 := by
        unfold entryPend
        simp [Ne.symm huo]
      rw [h1, h2, h3, h4]
      ring
  · refine pendRowOk_mono (isSome_findSummary_incFirstAvailable _ _ _ _) ?_ hpr
    exact hasPendW_replaceFirst p f led u.userId (fun a _ => (hf a).2.2)

end Sagenex

namespace Sagenex

theorem removeFirst_of_find?_none {α : Type} (p : α → Bool) (l : List α)
    (h : l.find? p = none) : removeFirst p l = l := by
  induction l with
  | nil => rfl
  | cons x xs ih =>
    rw [List.find?_cons] at h
    cases hp : p x with
    | true => rw [hp] at h; exact absurd h (by simp)
    | false =>
      rw [hp] at h
      simp [removeFirst, hp, ih h]

theorem mem_removeFirst_ne {α : Type} {β : Type} [DecidableEq β] (g : α → β)
    (t : β) (l : List α) (hnd : (l.map g).Nodup) (x : α)
    (hx : x ∈ removeFirst (fun a => g a = t) l) : g x ≠ t := by
  induction l with
  | nil => simp [removeFirst] at hx
  | cons a as ih =>
    rw [List.map_cons, List.nodup_cons] at hnd
    rw [removeFirst] at hx
    cases hp : (decide (g a = t)) with
    | true =>
      rw [hp, if_pos rfl] at hx
      have hat : g a = t := of_decide_eq_true hp
      intro hxt
      have hmem : g x ∈ List.map g as := List.mem_map_of_mem g hx
      rw [hxt, ← hat] at hmem
      exact hnd.1 hmem
    | false =>
      rw [hp] at hx
      simp only [Bool.false_eq_true, if_false] at hx
      rcases List.mem_cons.mp hx with h1 | h1
      · rw [h1]
        exact of_decide_eq_false hp
      · exact ih hnd.2 h1

/-- Posting a counted earning entry with the matching summary upsert, as a
whole-state operation. -/
theorem Inv_postBonus (s : State) (e : LedgerEntry) (h : Inv s)
    (hc : countsAffected e = true) (hp : isPendingWithdrawal e = false) :
    Inv (postBonus s e) :=
  InvOn_postEarning s.users s.summaries s.ledger e e.userId e.amount h rfl hc hp

theorem Inv_awardDirectBonus (s : State) (du : UserRec) (d : DepositForBonus)
    (h : Inv s) : Inv (awardDirectBonus s du d) := by
  unfold awardDirectBonus
  dsimp only
  split
  · exact h
  · split
    · exact h
    · exact Inv_postBonus s _ h rfl rfl

theorem Inv_awardUnilevelFrom (du : UserRec) (d : DepositForBonus) :
    ∀ (up : List UserRec) (i : Nat) (s : State), Inv s →
      Inv (awardUnilevelFrom du d up i s) := by
  intro up
  induction up with
  | nil => intro i s h; exact h
  | cons u rest ih =>
    intro i s h
    show Inv (awardUnilevelFrom du d (u :: rest) i s)
    unfold awardUnilevelFrom
    dsimp only
    by_cases hz : d.amountUSDT * (UNILEVEL_PCTS.getD i 0) ≤ 0
    · rw [if_pos hz]
      exact ih (i + 1) s h
    · rw [if_neg hz]
      exact ih (i + 1) _ (Inv_postBonus s _ h rfl rfl)

theorem Inv_awardUnilevelBonus (s : State) (up : List UserRec) (du : UserRec)
    (d : DepositForBonus) (h : Inv s) : Inv (awardUnilevelBonus s up du d) :=
  Inv_awardUnilevelFrom du d up 0 s h

end Sagenex

namespace Sagenex

/-- Replacing the summary list by one that resolves identically for every
member preserves the invariant. -/
theorem InvOn_summaryFindCongr (users : List UserRec)
    (sums sums2 : List WalletSummary) (led : List LedgerEntry)
    (hInv : InvOn users sums led)
    (hfind : ∀ u ∈ users, findSummary sums2 u.userId = findSummary sums u.userId) :
    InvOn users sums2 led := by
  obtain ⟨hnd, hall⟩ := hInv
  refine ⟨hnd, ?_⟩
  intro u hu
  obtain ⟨hav, hpr⟩ := hall u hu
  refine ⟨availOk_congr (hfind u hu) rfl hav, ?_⟩
  intro hq
  rw [hfind u hu]
  exact hpr hq

/-- Removing a user document from the directory preserves the invariant. -/
theorem InvOn_removeUser (users : List UserRec) (sums : List WalletSummary)
    (led : List LedgerEntry) (p : UserRec → Bool) (hInv : InvOn users sums led) :
    InvOn (removeFirst p users) sums led := by
  obtain ⟨hnd, hall⟩ := hInv
  refine ⟨?_, ?_⟩
  · exact (map_removeFirst_sublist p _ users).nodup hnd
  · intro u hu
    exact hall u (mem_removeFirst hu)

/-- Appending a ledger entry owned by an id that belongs to no directory
member preserves the invariant. -/
theorem InvOn_appendForeign (users : List UserRec) (sums : List WalletSummary)
    (led : List LedgerEntry) (e : LedgerEntry)
    (hInv : InvOn users sums led)
    (hforeign : ∀ u ∈ users, u.userId ≠ e.userId) :
    InvOn users sums (led ++ [e]) := by
  obtain ⟨hnd, hall⟩ := hInv
  refine ⟨hnd, ?_⟩
  intro u hu
  obtain ⟨hav, hpr⟩ := hall u hu
  have hca : entryAff u.userId e = 0 := by
    unfold entryAff
    simp [Ne.symm (hforeign u hu)]
  have hcp : entryPend u.userId e = 0 := by
    unfold entryPend
    simp [Ne.symm (hforeign u hu)]
  refine ⟨?_, ?_⟩
  · refine availOk_congr rfl ?_ hav
    rw [combined_append, hca, hcp]
    ring
  · intro hq
    exact hpr (hasPendW_append_other led e u.userId (Ne.symm (hforeign u hu)) hq)

/-- The write-out tail of a successful offline-deposit verification: mark the
deposit and its ledger entry VERIFIED, activate the package on the user
document, append the PACKAGE_ACTIVATION entry and touch the summary row. -/
def verifyTailState (s2 : State) (depositId : Nat) (adminId : String)
    (amt : Amount) (uid : UserId) : State :=
  let s3 := { s2 with
    offlineDeposits := replaceFirst (fun d => d.id = depositId)
      (fun d => { d with status := OfflineDepositStatus.VERIFIED })
      s2.offlineDeposits }
  let s4 := { s3 with
    ledger := replaceFirst
      (fun e => e.metaDepositId = some depositId &&
                e.type = LedgerEntryType.OFFLINE_DEPOSIT)
      (fun e => { e with status := LedgerEntryStatus.VERIFIED }) s3.ledger }
  let s5 := { s4 with
    users := replaceFirst (fun u => u.userId = uid)
      (fun u => activatePackageOn u amt) s4.users }
  let activationEntry : LedgerEntry :=
    { id := s5.nextLedgerId
      userId := uid
      type := LedgerEntryType.PACKAGE_ACTIVATION
      amount := amt
      status := LedgerEntryStatus.POSTED
      createdBy := adminId
      metaDepositId := some depositId }
  let s6 := { s5 with
    ledger := s5.ledger ++ [activationEntry]
    nextLedgerId := s5.nextLedgerId + 1 }
  { s6 with summaries := upsertTouch s6.summaries uid }

theorem Inv_verifyTailState (s2 : State) (depositId : Nat) (adminId : String)
    (amt : Amount) (uid : UserId) (h : Inv s2) :
    Inv (verifyTailState s2 depositId adminId amt uid) := by
  have h4 : InvOn s2.users s2.summaries
      (replaceFirst
        (fun e => e.metaDepositId = some depositId &&
                  e.type = LedgerEntryType.OFFLINE_DEPOSIT)
        (fun e => { e with status := LedgerEntryStatus.VERIFIED })
        s2.ledger) := by
    refine InvOn_ledgerReplaceNeutral _ _ _ _ _ h ?_
    intro a ha
    have hty : a.type = LedgerEntryType.OFFLINE_DEPOSIT := by
      simp only [Bool.and_eq_true, decide_eq_true_eq] at ha
      exact ha.2
    refine ⟨rfl, rfl, ?_, ?_⟩
    · simp [countsAffected, affectsBalance, hty]
    · simp [isPendingWithdrawal, hty]
  have h5 : InvOn
      (replaceFirst (fun u => u.userId = uid)
        (fun u => activatePackageOn u amt) s2.users)
      s2.summaries
      (replaceFirst
        (fun e => e.metaDepositId = some depositId &&
                  e.type = LedgerEntryType.OFFLINE_DEPOSIT)
        (fun e => { e with status := LedgerEntryStatus.VERIFIED })
        s2.ledger) :=
    InvOn_usersReplace _ _ _ _ _ h4 (fun a => rfl)
  have h6 : InvOn
      (replaceFirst (fun u => u.userId = uid)
        (fun u => activatePackageOn u amt) s2.users)
      s2.summaries
      ((replaceFirst
        (fun e => e.metaDepositId = some depositId &&
                  e.type = LedgerEntryType.OFFLINE_DEPOSIT)
        (fun e => { e with status := LedgerEntryStatus.VERIFIED })
        s2.ledger) ++
        [{ id := s2.nextLedgerId
           userId := uid
           type := LedgerEntryType.PACKAGE_ACTIVATION
           amount := amt
           status := LedgerEntryStatus.POSTED
           createdBy := adminId
           metaDepositId := some depositId }]) :=
    InvOn_appendNeutral _ _ _ _ h5 rfl rfl
  exact InvOn_upsertTouch _ _ _ uid h6

/-- The write-out tail of a successful crypto-deposit confirmation: mark the
deposit CONFIRMED, activate the package, append the PACKAGE_ACTIVATION entry
and touch the summary row. -/
def cryptoTailState (s2 : State) (depositId : Nat) (amt : Amount)
    (uid : UserId) : State :=
  let s3 := { s2 with
    cryptoDeposits := replaceFirst (fun d => d.id = depositId)
      (fun d => { d with status := CryptoDepositStatus.CONFIRMED })
      s2.cryptoDeposits }
  let s4 := { s3 with
    users := replaceFirst (fun u => u.userId = uid)
      (fun u => activatePackageOn u amt) s3.users }
  let activationEntry : LedgerEntry :=
    { id := s4.nextLedgerId
      userId := uid
      type := LedgerEntryType.PACKAGE_ACTIVATION
      amount := amt
      status := LedgerEntryStatus.POSTED
      createdBy := "SYSTEM_NOWPAYMENTS" }
  let s5 := { s4 with
    ledger := s4.ledger ++ [activationEntry]
    nextLedgerId := s4.nextLedgerId + 1 }
  { s5 with summaries := upsertTouch s5.summaries uid }

theorem Inv_cryptoTailState (s2 : State) (depositId : Nat) (amt : Amount)
    (uid : UserId) (h : Inv s2) :
    Inv (cryptoTailState s2 depositId amt uid) := by
  have h5 : InvOn
      (replaceFirst (fun u => u.userId = uid)
        (fun u => activatePackageOn u amt) s2.users)
      s2.summaries s2.ledger :=
    InvOn_usersReplace _ _ _ _ _ h (fun a => rfl)
  have h6 : InvOn
      (replaceFirst (fun u => u.userId = uid)
        (fun u => activatePackageOn u amt) s2.users)
      s2.summaries
      (s2.ledger ++
        [{ id := s2.nextLedgerId
           userId := uid
           type := LedgerEntryType.PACKAGE_ACTIVATION
           amount := amt
           status := LedgerEntryStatus.POSTED
           createdBy := "SYSTEM_NOWPAYMENTS" }]) :=
    InvOn_appendNeutral _ _ _ _ h5 rfl rfl
  exact InvOn_upsertTouch _ _ _ uid h6

end Sagenex

namespace Sagenex

theorem Inv_verifyDepositAndActivatePackage (s : State) (depositId : Nat)
    (adminId : String) (s1 : State)
    (hok : verifyDepositAndActivatePackage s depositId adminId = Except.ok s1)
    (h : Inv s) : Inv s1 := by
  cases hfind : s.offlineDeposits.find? (fun d => d.id = depositId) with
  | none =>
    have he : verifyDepositAndActivatePackage s depositId adminId =
        Except.error ⟨ErrName.NotFoundError, "Deposit not found."⟩ := by
      unfold verifyDepositAndActivatePackage
      rw [hfind]
      rfl
    rw [he] at hok
    exact Except.noConfusion hok
  | some d =>
    by_cases hstat : d.status = OfflineDepositStatus.PENDING
    · cases hfu : findUser s.users d.userId with
      | none =>
        have he : verifyDepositAndActivatePackage s depositId adminId =
            Except.error ⟨ErrName.NotFoundError, "User not found."⟩ := by
          unfold verifyDepositAndActivatePackage
          rw [hfind]
          show (if d.status ≠ OfflineDepositStatus.PENDING then _ else _) = _
          rw [if_neg (by simp [hstat])]
          rw [hfu]
          rfl
        rw [he] at hok
        exact Except.noConfusion hok
      | some user =>
        have he : verifyDepositAndActivatePackage s depositId adminId =
            Except.ok (verifyTailState
              (if priorVerifiedOfflineDeposits s.offlineDeposits user.userId = 0
               then awardUnilevelBonus
                 (awardDirectBonus s user ⟨d.id, d.userId, d.amountUSDT⟩)
                 (getUplineForUnilevel s.users user.parentId) user
                 ⟨d.id, d.userId, d.amountUSDT⟩
               else awardDirectBonus s user ⟨d.id, d.userId, d.amountUSDT⟩)
              depositId adminId d.amountUSDT user.userId) := by
          unfold verifyDepositAndActivatePackage verifyTailState
          rw [hfind]
          show (if d.status ≠ OfflineDepositStatus.PENDING then _ else _) = _
          rw [if_neg (by simp [hstat])]
          rw [hfu]
          rfl
        rw [he] at hok
        have hs1 := Except.ok.inj hok
        rw [← hs1]
        refine Inv_verifyTailState _ _ _ _ _ ?_
        have h1 : Inv (awardDirectBonus s user ⟨d.id, d.userId, d.amountUSDT⟩) :=
          Inv_awardDirectBonus s user _ h
        split
        · exact Inv_awardUnilevelBonus _ _ _ _ h1
        · exact h1
    · have he : verifyDepositAndActivatePackage s depositId adminId =
          Except.error ⟨ErrName.ValidationError, "Deposit is not pending."⟩ := by
        unfold verifyDepositAndActivatePackage
        rw [hfind]
        show (if d.status ≠ OfflineDepositStatus.PENDING then _ else _) = _
        rw [if_pos hstat]
        rfl
      rw [he] at hok
      exact Except.noConfusion hok

end Sagenex

namespace Sagenex

theorem Inv_processCryptoDeposit (s : State) (depositId : Nat)
    (paymentId : String) (s1 : State)
    (hok : processCryptoDeposit s depositId paymentId = Except.ok s1)
    (h : Inv s) : Inv s1 := by
  cases hfind : s.cryptoDeposits.find? (fun d => d.id = depositId) with
  | none =>
    have he : processCryptoDeposit s depositId paymentId =
        Except.error ⟨ErrName.NotFoundError, "Crypto deposit not found."⟩ := by
      unfold processCryptoDeposit
      rw [hfind]
      rfl
    rw [he] at hok
    exact Except.noConfusion hok
  | some d =>
    by_cases hstat : d.status = CryptoDepositStatus.PENDING
    · by_cases hpay : d.nowPaymentsPaymentId = paymentId
      · cases hfu : findUser s.users d.userId with
        | none =>
          have he : processCryptoDeposit s depositId paymentId =
              Except.error ⟨ErrName.NotFoundError, "User not found."⟩ := by
            unfold processCryptoDeposit
            rw [hfind]
            show (if d.status ≠ CryptoDepositStatus.PENDING then _ else _) = _
            rw [if_neg (by simp [hstat])]
            show (if d.nowPaymentsPaymentId ≠ paymentId then _ else _) = _
            rw [if_neg (by simp [hpay])]
            rw [hfu]
            rfl
          rw [he] at hok
          exact Except.noConfusion hok
        | some user =>
          have he : processCryptoDeposit s depositId paymentId =
              Except.ok (cryptoTailState
                (if priorConfirmedCryptoDeposits
                     (awardDirectBonus s user
                       ⟨d.id, user.userId, d.amountUSDT⟩).cryptoDeposits
                     user.userId = 0
                 then awardUnilevelBonus
                   (awardDirectBonus s user ⟨d.id, user.userId, d.amountUSDT⟩)
                   (getUplineForUnilevel
                     (awardDirectBonus s user
                       ⟨d.id, user.userId, d.amountUSDT⟩).users user.parentId)
                   user ⟨d.id, user.userId, d.amountUSDT⟩
                 else awardDirectBonus s user ⟨d.id, user.userId, d.amountUSDT⟩)
                depositId d.amountUSDT user.userId) := by
            unfold processCryptoDeposit cryptoTailState
            rw [hfind]
            show (if d.status ≠ CryptoDepositStatus.PENDING then _ else _) = _
            rw [if_neg (by simp [hstat])]
            show (if d.nowPaymentsPaymentId ≠ paymentId then _ else _) = _
            rw [if_neg (by simp [hpay])]
            rw [hfu]
            rfl
          rw [he] at hok
          have hs1 := Except.ok.inj hok
          rw [← hs1]
          refine Inv_cryptoTailState _ _ _ _ ?_
          have h1 : Inv (awardDirectBonus s user
              ⟨d.id, user.userId, d.amountUSDT⟩) :=
            Inv_awardDirectBonus s user _ h
          split
          · exact Inv_awardUnilevelBonus _ _ _ _ h1
          · exact h1
      · have he : processCryptoDeposit s depositId paymentId =
            Except.error ⟨ErrName.ValidationError,
              "NOWPayments Payment ID mismatch."⟩ := by
          unfold processCryptoDeposit
          rw [hfind]
          show (if d.status ≠ CryptoDepositStatus.PENDING then _ else _) = _
          rw [if_neg (by simp [hstat])]
          show (if d.nowPaymentsPaymentId ≠ paymentId then _ else _) = _
          rw [if_pos hpay]
          rfl
        rw [he] at hok
        exact Except.noConfusion hok
    · have he : processCryptoDeposit s depositId paymentId = Except.ok s := by
        unfold processCryptoDeposit
        rw [hfind]
        show (if d.status ≠ CryptoDepositStatus.PENDING then _ else _) = _
        rw [if_pos hstat]
        rfl
      rw [he] at hok
      rw [← Except.ok.inj hok]
      exact h

end Sagenex

namespace Sagenex

theorem Inv_createWithdrawalRequest (s : State) (userId : UserId)
    (amount : Amount) (addr : String) (s1 : State)
    (hok : createWithdrawalRequest s userId amount addr = Except.ok s1)
    (h : Inv s) : Inv s1 := by
  cases hfu : findUser s.users userId with
  | none =>
    have he : createWithdrawalRequest s userId amount addr =
        Except.error ⟨ErrName.NotFoundError, "User not found."⟩ := by
      unfold createWithdrawalRequest
      rw [hfu]
      rfl
    rw [he] at hok
    exact Except.noConfusion hok
  | some user =>
    cases hfs : findSummary s.summaries userId with
    | none =>
      have he : createWithdrawalRequest s userId amount addr =
          Except.error ⟨ErrName.NotFoundError, "Wallet not found."⟩ := by
        unfold createWithdrawalRequest
        rw [hfu]
        rw [hfs]
        rfl
      rw [he] at hok
      exact Except.noConfusion hok
    | some summary =>
      by_cases hkyc : user.kycStatus = KycStatus.VERIFIED
      · by_cases hamt : amount ≤ 0
        · have he : createWithdrawalRequest s userId amount addr =
              Except.error ⟨ErrName.ValidationError,
                "Withdrawal amount must be positive."⟩ := by
            unfold createWithdrawalRequest
            rw [hfu, hfs]
            show (if user.kycStatus ≠ KycStatus.VERIFIED then _ else _) = _
            rw [if_neg (by simp [hkyc])]
            show (if amount ≤ 0 then _ else _) = _
            rw [if_pos hamt]
            rfl
          rw [he] at hok
          exact Except.noConfusion hok
        · by_cases hbal : summary.availableToWithdraw < amount
          · have he : createWithdrawalRequest s userId amount addr =
                Except.error ⟨ErrName.ValidationError, "Insufficient funds."⟩ := by
              unfold createWithdrawalRequest
              rw [hfu, hfs]
              show (if user.kycStatus ≠ KycStatus.VERIFIED then _ else _) = _
              rw [if_neg (by simp [hkyc])]
              show (if amount ≤ 0 then _ else _) = _
              rw [if_neg hamt]
              show (if summary.availableToWithdraw < amount then _ else _) = _
              rw [if_pos hbal]
              rfl
            rw [he] at hok
            exact Except.noConfusion hok
          · have he : createWithdrawalRequest s userId amount addr =
                Except.ok ({ s with
                  ledger := s.ledger ++
                    [{ id := s.nextLedgerId
                       userId := userId
                       type := LedgerEntryType.WITHDRAWAL_REQUEST
                       amount := -amount
                       status := LedgerEntryStatus.PENDING
                       createdBy := userId
                       metaCounterpartyId := some addr }]
                  summaries := incFirstAvailable s.summaries userId (-amount)
                  nextLedgerId := s.nextLedgerId + 1 } : State) := by
              unfold createWithdrawalRequest
              rw [hfu, hfs]
              show (if user.kycStatus ≠ KycStatus.VERIFIED then _ else _) = _
              rw [if_neg (by simp [hkyc])]
              show (if amount ≤ 0 then _ else _) = _
              rw [if_neg hamt]
              show (if summary.availableToWithdraw < amount then _ else _) = _
              rw [if_neg hbal]
              rfl
            rw [he] at hok
            rw [← Except.ok.inj hok]
            exact InvOn_withdrawalRequest s.users s.summaries s.ledger
              { id := s.nextLedgerId
                userId := userId
                type := LedgerEntryType.WITHDRAWAL_REQUEST
                amount := -amount
                status := LedgerEntryStatus.PENDING
                createdBy := userId
                metaCounterpartyId := some addr }
              userId summary h rfl hfs rfl rfl
      · have he : createWithdrawalRequest s userId amount addr =
            Except.error ⟨ErrName.AuthorizationError,
              "KYC must be verified before you can withdraw funds."⟩ := by
          unfold createWithdrawalRequest
          rw [hfu, hfs]
          show (if user.kycStatus ≠ KycStatus.VERIFIED then _ else _) = _
          rw [if_pos hkyc]
          rfl
        rw [he] at hok
        exact Except.noConfusion hok

end Sagenex

namespace Sagenex

theorem Inv_approveWithdrawal (s : State) (withdrawalId : Nat)
    (adminId : String) (s1 : State)
    (hok : approveWithdrawal s withdrawalId adminId = Except.ok s1)
    (h : Inv s) : Inv s1 := by
  cases hfind : s.ledger.find? (fun e => e.id = withdrawalId) with
  | none =>
    have he : approveWithdrawal s withdrawalId adminId =
        Except.error ⟨ErrName.NotFoundError, "Withdrawal request not found."⟩ := by
      unfold approveWithdrawal
      rw [hfind]
      rfl
    rw [he] at hok
    exact Except.noConfusion hok
  | some w =>
    by_cases htype : w.type = LedgerEntryType.WITHDRAWAL_REQUEST
    · by_cases hstat : w.status = LedgerEntryStatus.PENDING
      · have he : approveWithdrawal s withdrawalId adminId =
            Except.ok ({ s with
              ledger := replaceFirst (fun e => e.id = withdrawalId)
                (fun e => { e with status := LedgerEntryStatus.PAID,
                                   metaProcessedBy := some adminId })
                s.ledger } : State) := by
          unfold approveWithdrawal
          rw [hfind]
          show (if w.type ≠ LedgerEntryType.WITHDRAWAL_REQUEST then _ else _) = _
          rw [if_neg (by simp [htype])]
          show (if w.status ≠ LedgerEntryStatus.PENDING then _ else _) = _
          rw [if_neg (by simp [hstat])]
          rfl
        rw [he] at hok
        rw [← Except.ok.inj hok]
        refine InvOn_approve s.users s.summaries s.ledger _ _ w h hfind ?_ ?_ ?_ ?_
        · intro a
          refine ⟨rfl, rfl, ?_⟩
          simp [isPendingWithdrawal]
        · simp [countsAffected, affectsBalance, htype, hstat]
        · simp [isPendingWithdrawal, htype, hstat]
        · simp [countsAffected, affectsBalance, htype]
      · have he : approveWithdrawal s withdrawalId adminId =
            Except.error ⟨ErrName.ConflictError, "Cannot approve request."⟩ := by
          unfold approveWithdrawal
          rw [hfind]
          show (if w.type ≠ LedgerEntryType.WITHDRAWAL_REQUEST then _ else _) = _
          rw [if_neg (by simp [htype])]
          show (if w.status ≠ LedgerEntryStatus.PENDING then _ else _) = _
          rw [if_pos hstat]
          rfl
        rw [he] at hok
        exact Except.noConfusion hok
    · have he : approveWithdrawal s withdrawalId adminId =
          Except.error ⟨ErrName.NotFoundError, "Withdrawal request not found."⟩ := by
        unfold approveWithdrawal
        rw [hfind]
        show (if w.type ≠ LedgerEntryType.WITHDRAWAL_REQUEST then _ else _) = _
        rw [if_pos htype]
        rfl
      rw [he] at hok
      exact Except.noConfusion hok

theorem Inv_rejectWithdrawal (s : State) (withdrawalId : Nat)
    (adminId reason : String) (s1 : State)
    (hok : rejectWithdrawal s withdrawalId adminId reason = Except.ok s1)
    (h : Inv s) : Inv s1 := by
  by_cases hra : reason = ""
  · have he : rejectWithdrawal s withdrawalId adminId reason =
        Except.error ⟨ErrName.ValidationError,
          "A reason is required to reject a withdrawal."⟩ := by
      unfold rejectWithdrawal
      rw [if_pos hra]
      rfl
    rw [he] at hok
    exact Except.noConfusion hok
  · cases hfind : s.ledger.find? (fun e => e.id = withdrawalId) with
    | none =>
      have he : rejectWithdrawal s withdrawalId adminId reason =
          Except.error ⟨ErrName.NotFoundError, "Withdrawal request not found."⟩ := by
        unfold rejectWithdrawal
        rw [if_neg hra, hfind]
        rfl
      rw [he] at hok
      exact Except.noConfusion hok
    | some w =>
      by_cases htype : w.type = LedgerEntryType.WITHDRAWAL_REQUEST
      · by_cases hstat : w.status = LedgerEntryStatus.PENDING
        · have he : rejectWithdrawal s withdrawalId adminId reason =
              Except.ok ({ s with
                summaries := incFirstAvailable s.summaries w.userId (-w.amount)
                ledger := replaceFirst (fun e => e.id = withdrawalId)
                  (fun e => { e with status := LedgerEntryStatus.REJECTED,
                                     metaProcessedBy := some adminId })
                  s.ledger } : State) := by
            unfold rejectWithdrawal
            rw [if_neg hra, hfind]
            show (if w.type ≠ LedgerEntryType.WITHDRAWAL_REQUEST then _ else _) = _
            rw [if_neg (by simp [htype])]
            show (if w.status ≠ LedgerEntryStatus.PENDING then _ else _) = _
            rw [if_neg (by simp [hstat])]
            rfl
          rw [he] at hok
          rw [← Except.ok.inj hok]
          refine InvOn_reject s.users s.summaries s.ledger _ _ w h hfind ?_ ?_ ?_ ?_
          · intro a
            refine ⟨rfl, rfl, ?_⟩
            simp [isPendingWithdrawal]
          · simp [countsAffected, affectsBalance, htype, hstat]
          · simp [isPendingWithdrawal, htype, hstat]
          · simp [countsAffected, affectsBalance, htype]
        · have he : rejectWithdrawal s withdrawalId adminId reason =
              Except.error ⟨ErrName.ConflictError, "Cannot reject request."⟩ := by
            unfold rejectWithdrawal
            rw [if_neg hra, hfind]
            show (if w.type ≠ LedgerEntryType.WITHDRAWAL_REQUEST then _ else _) = _
            rw [if_neg (by simp [htype])]
            show (if w.status ≠ LedgerEntryStatus.PENDING then _ else _) = _
            rw [if_pos hstat]
            rfl
          rw [he] at hok
          exact Except.noConfusion hok
      · have he : rejectWithdrawal s withdrawalId adminId reason =
            Except.error ⟨ErrName.NotFoundError, "Withdrawal request not found."⟩ := by
          unfold rejectWithdrawal
          rw [if_neg hra, hfind]
          show (if w.type ≠ LedgerEntryType.WITHDRAWAL_REQUEST then _ else _) = _
          rw [if_pos htype]
          rfl
        rw [he] at hok
        exact Except.noConfusion hok

end Sagenex

namespace Sagenex

theorem Inv_transferCommittedState (s : State) (senderId recipientId : UserId)
    (amount : Amount) (txId : String) (w : WalletSummary)
    (h : Inv s) (hw : findSummary s.summaries senderId = some w) :
    Inv (transferCommittedState s senderId recipientId amount txId) := by
  have h1 : InvOn s.users (incFirstAvailable s.summaries senderId
      (-amount)) (s.ledger ++
        [transferOutEntry s.nextLedgerId senderId recipientId amount txId]) := by
    have := InvOn_debitEntry s.users s.summaries s.ledger
      (transferOutEntry s.nextLedgerId senderId recipientId amount txId)
      senderId w h rfl hw rfl rfl
    exact this
  have h2 : InvOn s.users
      (upsertInc (incFirstAvailable s.summaries senderId (-amount))
        recipientId amount amount)
      ((s.ledger ++
        [transferOutEntry s.nextLedgerId senderId recipientId amount txId]) ++
        [transferInEntry (s.nextLedgerId + 1) senderId recipientId amount txId]) := by
    have := InvOn_postEarning s.users
      (incFirstAvailable s.summaries senderId (-amount))
      (s.ledger ++
        [transferOutEntry s.nextLedgerId senderId recipientId amount txId])
      (transferInEntry (s.nextLedgerId + 1) senderId recipientId amount txId)
      recipientId amount h1 rfl rfl rfl
    exact this
  rw [List.append_assoc] at h2
  have h3 := InvOn_usersReplace
    s.users
    (upsertInc (incFirstAvailable s.summaries senderId (-amount))
      recipientId amount amount)
    (s.ledger ++
      ([transferOutEntry s.nextLedgerId senderId recipientId amount txId] ++
       [transferInEntry (s.nextLedgerId + 1) senderId recipientId amount txId]))
    (fun u => u.userId = senderId)
    (fun u => { u with
      otp := none
      otpExpires := none
      failedOtpAttempts := 0
      otpLockoutExpires := none })
    h2 (fun a => rfl)
  exact h3

theorem Inv_executeTransferSteps (s : State) (senderId recipientId : UserId)
    (amount : Amount) (otp : String) (now : Time) (txId : String)
    (fault : Option Nat) (s1 : State)
    (hok : executeTransferSteps s senderId recipientId amount otp now txId
      fault = Except.ok s1)
    (h : Inv s) : Inv s1 := by
  unfold executeTransferSteps at hok
  by_cases hne : senderId = recipientId
  · rw [if_pos hne] at hok
    exact Except.noConfusion hok
  · rw [if_neg hne] at hok
    by_cases hamt : amount ≤ 0
    · rw [if_pos hamt] at hok
      exact Except.noConfusion hok
    · rw [if_neg hamt] at hok
      cases hs : findUser s.users senderId with
      | none =>
        rw [hs] at hok
        exact Except.noConfusion hok
      | some sender =>
        rw [hs] at hok
        dsimp only at hok
        cases hr : findUser s.users recipientId with
        | none =>
          rw [hr] at hok
          exact Except.noConfusion hok
        | some recipient =>
          rw [hr] at hok
          dsimp only at hok
          cases hw : findSummary s.summaries senderId with
          | none =>
            rw [hw] at hok
            exact Except.noConfusion hok
          | some senderWallet =>
            rw [hw] at hok
            dsimp only at hok
            cases hlock : lockoutActive sender now with
            | true =>
              rw [hlock] at hok
              rw [if_pos rfl] at hok
              exact Except.noConfusion hok
            | false =>
              rw [hlock] at hok
              simp only [Bool.false_eq_true, if_false] at hok
              cases hotp : sender.otp with
              | none =>
                rw [hotp] at hok
                exact Except.noConfusion hok
              | some stored =>
                rw [hotp] at hok
                dsimp only at hok
                cases hexp : sender.otpExpires with
                | none =>
                  rw [hexp] at hok
                  exact Except.noConfusion hok
                | some texp =>
                  rw [hexp] at hok
                  dsimp only at hok
                  by_cases hlive : now > texp
                  · rw [if_pos hlive] at hok
                    exact Except.noConfusion hok
                  · rw [if_neg hlive] at hok
                    by_cases hmatch : otp ≠ stored
                    · rw [if_pos hmatch] at hok
                      exact Except.noConfusion hok
                    · rw [if_neg hmatch] at hok
                      by_cases hbal : senderWallet.availableToWithdraw < amount
                      · rw [if_pos hbal] at hok
                        exact Except.noConfusion hok
                      · rw [if_neg hbal] at hok
                        by_cases h1 : fault = some 1
                        · rw [if_pos h1] at hok
                          exact Except.noConfusion hok
                        · rw [if_neg h1] at hok
                          by_cases h2 : fault = some 2
                          · rw [if_pos h2] at hok
                            exact Except.noConfusion hok
                          · rw [if_neg h2] at hok
                            by_cases h3 : fault = some 3
                            · rw [if_pos h3] at hok
                              exact Except.noConfusion hok
                            · rw [if_neg h3] at hok
                              by_cases h4 : fault = some 4
                              · rw [if_pos h4] at hok
                                exact Except.noConfusion hok
                              · rw [if_neg h4] at hok
                                rw [← Except.ok.inj hok]
                                exact Inv_transferCommittedState s senderId
                                  recipientId amount txId senderWallet h hw

theorem Inv_executeTransfer (s : State) (senderId recipientId : UserId)
    (amount : Amount) (otp : String) (now : Time) (txId : String)
    (fault : Option Nat) (h : Inv s) :
    Inv (executeTransfer s senderId recipientId amount otp now txId fault).1 := by
  unfold executeTransfer
  cases hsteps : executeTransferSteps s senderId recipientId amount otp now
      txId fault with
  | ok s1 =>
    exact Inv_executeTransferSteps s senderId recipientId amount otp now txId
      fault s1 hsteps h
  | error e => exact h

end Sagenex

namespace Sagenex

theorem Inv_deleteUser (s : State) (userId : UserId) (adminId : String)
    (s1 : State) (hok : deleteUser s userId adminId = Except.ok s1)
    (h : Inv s) : Inv s1 := by
  cases hfu : findUser s.users userId with
  | none =>
    have he : deleteUser s userId adminId =
        Except.error ⟨ErrName.NotFoundError, "User not found."⟩ := by
      unfold deleteUser
      rw [hfu]
      rfl
    rw [he] at hok
    exact Except.noConfusion hok
  | some u0 =>
    by_cases hch : countChildren s.users userId > 0
    · have he : deleteUser s userId adminId =
          Except.error ⟨ErrName.ConflictError,
            "Cannot delete user. User has direct children."⟩ := by
        unfold deleteUser
        rw [hfu]
        show (if countChildren s.users userId > 0 then _ else _) = _
        rw [if_pos hch]
        rfl
      rw [he] at hok
      exact Except.noConfusion hok
    · obtain ⟨hnd, hall⟩ := h
      have hndR : ((removeFirst (fun u => u.userId = userId) s.users).map
          (fun u => u.userId)).Nodup :=
        (map_removeFirst_sublist _ _ s.users).nodup hnd
      have hneq : ∀ u ∈ removeFirst (fun x => x.userId = userId) s.users,
          u.userId ≠ userId :=
        fun u hu => mem_removeFirst_ne (fun x => x.userId) userId s.users hnd u hu
      cases hws : findSummary s.summaries userId with
      | none =>
        have he : deleteUser s userId adminId =
            Except.ok ({ s with
              users := removeFirst (fun u => u.userId = userId) s.users } : State) := by
          unfold deleteUser
          rw [hfu]
          show (if countChildren s.users userId > 0 then _ else _) = _
          rw [if_neg hch]
          rw [hws]
          rfl
        rw [he] at hok
        rw [← Except.ok.inj hok]
        exact InvOn_removeUser s.users s.summaries s.ledger _ ⟨hnd, hall⟩
      | some ws =>
        by_cases hpos : 0 < ws.availableToWithdraw
        · have he : deleteUser s userId adminId =
              Except.ok ({ s with
                ledger := s.ledger ++
                  [{ id := s.nextLedgerId
                     userId := userId
                     type := LedgerEntryType.FUND_TRANSFER_ON_DELETE
                     amount := -ws.availableToWithdraw
                     status := LedgerEntryStatus.POSTED
                     createdBy := adminId
                     metaSourceUserId := some userId },
                   { id := s.nextLedgerId + 1
                     userId := companySponsorId
                     type := LedgerEntryType.FUND_TRANSFER_ON_DELETE
                     amount := ws.availableToWithdraw
                     status := LedgerEntryStatus.POSTED
                     createdBy := adminId
                     metaSourceUserId := some userId }]
                summaries := removeFirst (fun r => r.userId = userId)
                  (upsertInc s.summaries companySponsorId
                    ws.availableToWithdraw ws.availableToWithdraw)
                users := removeFirst (fun u => u.userId = userId) s.users
                nextLedgerId := s.nextLedgerId + 2 } : State) := by
            unfold deleteUser
            rw [hfu]
            show (if countChildren s.users userId > 0 then _ else _) = _
            rw [if_neg hch]
            rw [hws]
            dsimp only
            rw [if_pos hpos]
            rfl
          rw [he] at hok
          rw [← Except.ok.inj hok]
          have u0 : InvOn (removeFirst (fun u => u.userId = userId) s.users)
              s.summaries s.ledger :=
            InvOn_removeUser s.users s.summaries s.ledger _ ⟨hnd, hall⟩
          have u1 : InvOn (removeFirst (fun u => u.userId = userId) s.users)
              s.summaries (s.ledger ++
                [{ id := s.nextLedgerId
                   userId := userId
                   type := LedgerEntryType.FUND_TRANSFER_ON_DELETE
                   amount := -ws.availableToWithdraw
                   status := LedgerEntryStatus.POSTED
                   createdBy := adminId
                   metaSourceUserId := some userId }]) :=
            InvOn_appendForeign _ _ _ _ u0 hneq
          have u2 := InvOn_postEarning
            (removeFirst (fun u => u.userId = userId) s.users)
            s.summaries
            (s.ledger ++
              [{ id := s.nextLedgerId
                 userId := userId
                 type := LedgerEntryType.FUND_TRANSFER_ON_DELETE
                 amount := -ws.availableToWithdraw
                 status := LedgerEntryStatus.POSTED
                 createdBy := adminId
                 metaSourceUserId := some userId }])
            { id := s.nextLedgerId + 1
              userId := companySponsorId
              type := LedgerEntryType.FUND_TRANSFER_ON_DELETE
              amount := ws.availableToWithdraw
              status := LedgerEntryStatus.POSTED
              createdBy := adminId
              metaSourceUserId := some userId }
            companySponsorId ws.availableToWithdraw u1 rfl rfl rfl
          rw [List.append_assoc] at u2
          refine InvOn_summaryFindCongr _ _ _ _ u2 ?_
          intro u hu
          unfold findSummary
          refine find?_removeFirst_other _ _ ?_ _
          intro a ha
          have haid : a.userId = userId := by simpa using ha
          simp [haid, Ne.symm (hneq u hu)]
        · have he : deleteUser s userId adminId =
              Except.ok ({ s with
                summaries := removeFirst (fun r => r.userId = userId) s.summaries
                users := removeFirst (fun u => u.userId = userId) s.users } : State) := by
            unfold deleteUser
            rw [hfu]
            show (if countChildren s.users userId > 0 then _ else _) = _
            rw [if_neg hch]
            rw [hws]
            dsimp only
            rw [if_neg hpos]
            rfl
          rw [he] at hok
          rw [← Except.ok.inj hok]
          have u0 : InvOn (removeFirst (fun u => u.userId = userId) s.users)
              s.summaries s.ledger :=
            InvOn_removeUser s.users s.summaries s.ledger _ ⟨hnd, hall⟩
          refine InvOn_summaryFindCongr _ _ _ _ u0 ?_
          intro u hu
          unfold findSummary
          refine find?_removeFirst_other _ _ ?_ _
          intro a ha
          have haid : a.userId = userId := by simpa using ha
          simp [haid, Ne.symm (hneq u hu)]

end Sagenex

namespace Sagenex

/-- The operations of the ledger and balance subsystem named by the claim:
bonus postings, package-activating deposit verifications, withdrawal request,
approval and rejection, member-to-member transfer and the deletion fund
sweep. -/
inductive Op
  | directBonus (depositingUser : UserRec) (deposit : DepositForBonus)
  | unilevelBonus (upline : List UserRec) (depositingUser : UserRec)
      (deposit : DepositForBonus)
  | verifyDeposit (depositId : Nat) (adminUserId : String)
  | cryptoDeposit (depositId : Nat) (paymentId : String)
  | withdrawalRequest (userId : UserId) (amount : Amount) (addr : String)
  | approve (withdrawalId : Nat) (adminId : String)
  | reject (withdrawalId : Nat) (adminId : String) (reason : String)
  | transfer (senderId recipientId : UserId) (amount : Amount) (otp : String)
      (now : Time) (txId : String) (fault : Option Nat)
  | delete (userId : UserId) (adminId : String)

/-- Run one operation to completion: a failing operation throws before any
write (or, for the transfer, aborts its transaction), leaving the stored
state unchanged; a successful one commits its post-state. -/
def runOp (op : Op) (s : State) : State :=
  match op with
  | Op.directBonus du d => awardDirectBonus s du d
  | Op.unilevelBonus up du d => awardUnilevelBonus s up du d
  | Op.verifyDeposit did a =>
    match verifyDepositAndActivatePackage s did a with
    | Except.ok s1 => s1
    | Except.error _ => s
  | Op.cryptoDeposit did p =>
    match processCryptoDeposit s did p with
    | Except.ok s1 => s1
    | Except.error _ => s
  | Op.withdrawalRequest uid amt addr =>
    match createWithdrawalRequest s uid amt addr with
    | Except.ok s1 => s1
    | Except.error _ => s
  | Op.approve wid a =>
    match approveWithdrawal s wid a with
    | Except.ok s1 => s1
    | Except.error _ => s
  | Op.reject wid a r =>
    match rejectWithdrawal s wid a r with
    | Except.ok s1 => s1
    | Except.error _ => s
  | Op.transfer sid rid amt otp now txId fault =>
    (executeTransfer s sid rid amt otp now txId fault).1
  | Op.delete uid a =>
    match deleteUser s uid a with
    | Except.ok s1 => s1
    | Except.error _ => s

theorem Inv_implies_Amended (t : State) (h : Inv t) : AmendedInvariant t := by
  intro u hu r hr
  have hav := (h.2 u hu).1
  unfold availOk at hav
  rw [hr] at hav
  unfold combined at hav
  exact hav

end Sagenex

namespace Sagenex

/-- C1 (amended): the spec equality must also count the still-PENDING
WITHDRAWAL_REQUEST entries, which are debited from the available balance at
request time.  With that correction the reconciliation is an invariant: any
completed operation of the subsystem (bonus posting, deposit verification
with package activation, withdrawal request, approval or rejection, transfer,
user deletion with fund sweep) run on a reconciled state leaves every
member's summary equal to the signed sum of their POSTED, PAID or VERIFIED
balance-affecting entries plus their PENDING withdrawal requests. -/
theorem C1_amended_reconciliation_invariant (op : Op) (s : State)
    (h : Inv s) : Inv (runOp op s) ∧ AmendedInvariant (runOp op s) := by
  have key : Inv (runOp op s) := by
    cases op with
    | directBonus du d => exact Inv_awardDirectBonus s du d h
    | unilevelBonus up du d => exact Inv_awardUnilevelBonus s up du d h
    | verifyDeposit did a =>
      show Inv (match verifyDepositAndActivatePackage s did a with
        | Except.ok s1 => s1
        | Except.error _ => s)
      cases hv : verifyDepositAndActivatePackage s did a with
      | ok s1 => exact Inv_verifyDepositAndActivatePackage s did a s1 hv h
      | error e => exact h
    | cryptoDeposit did p =>
      show Inv (match processCryptoDeposit s did p with
        | Except.ok s1 => s1
        | Except.error _ => s)
      cases hv : processCryptoDeposit s did p with
      | ok s1 => exact Inv_processCryptoDeposit s did p s1 hv h
      | error e => exact h
    | withdrawalRequest uid amt addr =>
      show Inv (match createWithdrawalRequest s uid amt addr with
        | Except.ok s1 => s1
        | Except.error _ => s)
      cases hv : createWithdrawalRequest s uid amt addr with
      | ok s1 => exact Inv_createWithdrawalRequest s uid amt addr s1 hv h
      | error e => exact h
    | approve wid a =>
      show Inv (match approveWithdrawal s wid a with
        | Except.ok s1 => s1
        | Except.error _ => s)
      cases hv : approveWithdrawal s wid a with
      | ok s1 => exact Inv_approveWithdrawal s wid a s1 hv h
      | error e => exact h
    | reject wid a r =>
      show Inv (match rejectWithdrawal s wid a r with
        | Except.ok s1 => s1
        | Except.error _ => s)
      cases hv : rejectWithdrawal s wid a r with
      | ok s1 => exact Inv_rejectWithdrawal s wid a r s1 hv h
      | error e => exact h
    | transfer sid rid amt otp now txId fault =>
      exact Inv_executeTransfer s sid rid amt otp now txId fault h
    | delete uid a =>
      show Inv (match deleteUser s uid a with
        | Except.ok s1 => s1
        | Except.error _ => s)
      cases hv : deleteUser s uid a with
      | ok s1 => exact Inv_deleteUser s uid a s1 hv h
      | error e => exact h
  exact ⟨key, Inv_implies_Amended _ key⟩

instance (sums : List WalletSummary) (led : List LedgerEntry) (u : UserId) :
    Decidable (pendRowOk sums led u) := by
  unfold pendRowOk
  exact inferInstanceAs (Decidable _)

instance (users : List UserRec) (sums : List WalletSummary)
    (led : List LedgerEntry) : Decidable (InvOn users sums led) := by
  unfold InvOn
  exact inferInstanceAs (Decidable _)

instance (s : State) : Decidable (Inv s) := by
  unfold Inv
  exact inferInstanceAs (Decidable _)

/-- C1 witness: the amended invariant theorem applied to the concrete
one-member reconciled state and its completed withdrawal request of 40. -/
theorem C1_amended_reconciliation_witness :
    Inv C1State ∧
    Inv (runOp (Op.withdrawalRequest "U1" 40 "ADDR") C1State) ∧
    AmendedInvariant (runOp (Op.withdrawalRequest "U1" 40 "ADDR") C1State) :=
  ⟨by with_unfolding_all decide,
   (C1_amended_reconciliation_invariant (Op.withdrawalRequest "U1" 40 "ADDR")
     C1State (by with_unfolding_all decide)).1,
   (C1_amended_reconciliation_invariant (Op.withdrawalRequest "U1" 40 "ADDR")
     C1State (by with_unfolding_all decide)).2⟩

end Sagenex
